import Mathlib

/-!
# kubemrr: the watch command (`app/watch.go`)

A shallow embedding of `RunWatch`, of the three watch loops
(`loopWatchPods`, `loopWatchServices`, `loopWatchDeployments`) and of the three
refresh loops (`loopUpdatePods`, `loopUpdateServices`, `loopUpdateDeployments`).

Every function of `watch.go` is embedded as the sequence of effects that it
performs (log lines, calls on the Kubernetes client, calls on the cache, writes
to stderr, goroutine launches), as a function of the values that the outside
world hands to it (events taken from a channel, results of client calls).
The cache (`MrrCache`), the client (`KubeClient`), the factory and the resource
types are declared in files of the repository that are not part of the sources
at hand; what is needed of them is modelled from the specification and marked
so.
-/

namespace Kubemrr

/-! ## Data model -/

/-- The three resource kinds that are mirrored. -/
inductive Kind
  | pod
  | service
  | deployment
deriving DecidableEq, Repr

/-- Modelled from the spec: the type of a change event. In Go it is an open
(string) type; `watch.go` names the three constants `Added`, `Modified` and
`Deleted`, every other value is `unrecognised`. -/
inductive EventType
  | Added
  | Modified
  | Deleted
  | unrecognised (raw : String)
deriving DecidableEq, Repr

/-- Modelled from the spec: the key of a resource, its name qualified by its
namespace (the empty namespace for an unqualified name). -/
abbrev Key := String × String

/-- Modelled from the spec: a pod, an immutable value with an identifying key
and a payload. `watch.go` reads the field `Name`. -/
structure Pod where
  Name : String
  Namespace : String
  Payload : String
deriving DecidableEq, Repr

/-- Modelled from the spec: a service (see `Pod`). -/
structure Service where
  Name : String
  Namespace : String
  Payload : String
deriving DecidableEq, Repr

/-- Modelled from the spec: a deployment (see `Pod`). -/
structure Deployment where
  Name : String
  Namespace : String
  Payload : String
deriving DecidableEq, Repr

/-- Key of a pod. -/
def Pod.key (p : Pod) : Key := (p.Namespace, p.Name)

/-- Key of a service. -/
def Service.key (s : Service) : Key := (s.Namespace, s.Name)

/-- Key of a deployment. -/
def Deployment.key (d : Deployment) : Key := (d.Namespace, d.Name)

/-- Modelled from the spec: the struct behind `*PodEvent`, with the fields
`e.Type` and `e.Pod` that `watch.go` reads. `e.Pod` is a pointer: `none` is the
nil pointer. -/
structure PodEvent where
  EvType : EventType
  Pod : Option Pod
deriving DecidableEq, Repr

/-- Modelled from the spec: the struct behind `*ServiceEvent`. -/
structure ServiceEvent where
  EvType : EventType
  Service : Option Service
deriving DecidableEq, Repr

/-- Modelled from the spec: the struct behind `*DeploymentEvent`. -/
structure DeploymentEvent where
  EvType : EventType
  Deployment : Option Deployment
deriving DecidableEq, Repr

/-- Identity of a cache object (`*MrrCache`). -/
structure CacheRef where
  id : Nat
deriving DecidableEq, Repr

/-- Identity of a client (`KubeClient`), named by the URL it was built for. -/
structure ClientRef where
  url : String
deriving DecidableEq, Repr

/-- Identity of a channel returned by `make`. -/
structure ChanRef where
  id : Nat
deriving DecidableEq, Repr

/-- Identity of a listener returned by `net.Listen`. -/
structure Listener where
  addr : String
deriving DecidableEq, Repr

/-! ## Effects -/

/-- An argument of a format string. -/
inductive LogArg
  | str (s : String)
  | eventType (t : EventType)
  | num (n : Nat)
  | baseURL (kc : ClientRef)
deriving DecidableEq, Repr

/-- The write operations of `MrrCache` that `watch.go` calls. -/
inductive CacheOp
  | removePod (p : Pod)
  | updatePod (p : Pod)
  | setPods (ps : List Pod)
  | removeService (s : Service)
  | updateService (s : Service)
  | setServices (ss : List Service)
  | removeDeployment (d : Deployment)
  | updateDeployment (d : Deployment)
  | setDeployments (ds : List Deployment)
deriving DecidableEq, Repr

/-- The collection that a cache operation works on. -/
def CacheOp.kind : CacheOp → Kind
  | .removePod _ => .pod
  | .updatePod _ => .pod
  | .setPods _ => .pod
  | .removeService _ => .service
  | .updateService _ => .service
  | .setServices _ => .service
  | .removeDeployment _ => .deployment
  | .updateDeployment _ => .deployment
  | .setDeployments _ => .deployment

/-- Is the operation a replace-all (`setPods`, `setServices`, `setDeployments`)? -/
def CacheOp.isReplaceAll : CacheOp → Bool
  | .setPods _ => true
  | .setServices _ => true
  | .setDeployments _ => true
  | _ => false

/-- The closures that `watch.go` starts as goroutines, with the variables they
capture. -/
inductive Routine
  | watchPods (kc : ClientRef) (events : ChanRef)
  | updatePods (c : CacheRef) (events : ChanRef)
  | watchServices (kc : ClientRef) (events : ChanRef)
  | updateServices (c : CacheRef) (events : ChanRef)
  | watchDeployments (kc : ClientRef) (events : ChanRef)
  | updateDeployments (c : CacheRef) (events : ChanRef)
deriving DecidableEq, Repr

/-- One observable action of `watch.go`. -/
inductive Effect
  /-- Call `log.Infof(format, args...)`. -/
  | logInfo (format : String) (args : List LogArg)
  /-- Call `log.WithField(field, c.<kind>).Debugf(format)`, which reads the collection of `kind`. -/
  | logDebugField (field : String) (kind : Kind) (format : String)
  /-- Call `log.Println(msg)`. -/
  | logPrintln (msg : String)
  /-- A write operation on the cache `c`. -/
  | cache (c : CacheRef) (op : CacheOp)
  /-- Call `kc.WatchPods(events)`, `kc.WatchServices(events)` or `kc.WatchDeployments(events)`. -/
  | watch (kc : ClientRef) (kind : Kind) (events : ChanRef)
  /-- Call `kc.GetPods()`, `kc.GetServices()` or `kc.GetDeployments()`. -/
  | list (kc : ClientRef) (kind : Kind)
  /-- Call `time.Sleep(interval)`. -/
  | sleep (interval : Nat)
  /-- Call `fmt.Fprintf(f.StdErr(), format, args...)`. -/
  | stderr (format : String) (args : List LogArg)
  /-- Call `net.Listen("tcp", bind)`. -/
  | listen (bind : String)
  /-- Call `f.MrrCache()`. -/
  | mrrCache
  /-- Call `f.KubeClient(url)`. -/
  | kubeClient (url : String)
  /-- Call `make(chan ...)`. -/
  | makeChan (events : ChanRef)
  /-- A `go` statement. -/
  | go (r : Routine)
  /-- Call `f.Serve(l, c)`. -/
  | serve (l : Listener) (c : CacheRef)
  /-- A run-time panic. -/
  | panic (msg : String)
deriving DecidableEq, Repr

/-- What a piece of code did: its effects, and whether it ended in a panic. -/
structure Outcome where
  effects : List Effect
  panicked : Bool
deriving DecidableEq, Repr

/-- The cache operations among a list of effects, in order. -/
def cacheOps : List Effect → List (CacheRef × CacheOp)
  | [] => []
  | .cache c op :: rest => (c, op) :: cacheOps rest
  | _ :: rest => cacheOps rest

/-- The kind of the collection that an effect reads or writes, if any. -/
def Effect.collection : Effect → Option Kind
  | .cache _ op => some op.kind
  | .logDebugField _ k _ => some k
  | _ => none

/-- Is the effect a log entry? -/
def Effect.isLog : Effect → Bool
  | .logInfo _ _ => true
  | .logDebugField _ _ _ => true
  | .logPrintln _ => true
  | _ => false

/-- The message of the panic raised by reading a field through a nil pointer. -/
def nilDereference : String := "invalid memory address or nil pointer dereference"

/-! ## The apply routines (the `update` closures) -/

/-- The body of the `for`/`select` of `update` in `loopWatchPods`, for the
received event `e` (`none` is a nil `*PodEvent`). -/
def updatePodsBody (c : CacheRef) (e : Option PodEvent) : Outcome :=
  match e with
  | none => ⟨[.panic nilDereference], true⟩
  | some ev =>
    match ev.Pod with
    | none => ⟨[.panic nilDereference], true⟩
    | some p =>
      ⟨[.logInfo "Received event [%s] for pod [%s]" [.eventType ev.EvType, .str p.Name]]
        ++ (match ev.EvType with
            | .Deleted => [.cache c (.removePod p)]
            | .Added => [.cache c (.updatePod p)]
            | .Modified => [.cache c (.updatePod p)]
            | .unrecognised _ => [])
        ++ [.logDebugField "pods" .pod "Cached pods"], false⟩

/-- The body of the `for`/`select` of `update` in `loopWatchServices`. -/
def updateServicesBody (c : CacheRef) (e : Option ServiceEvent) : Outcome :=
  match e with
  | none => ⟨[.panic nilDereference], true⟩
  | some ev =>
    match ev.Service with
    | none => ⟨[.panic nilDereference], true⟩
    | some s =>
      ⟨[.logInfo "Received event [%s] for service [%s]" [.eventType ev.EvType, .str s.Name]]
        ++ (match ev.EvType with
            | .Deleted => [.cache c (.removeService s)]
            | .Added => [.cache c (.updateService s)]
            | .Modified => [.cache c (.updateService s)]
            | .unrecognised _ => [])
        ++ [.logDebugField "services" .service "Cached services"], false⟩

/-- The body of the `for`/`select` of `update` in `loopWatchDeployments`. -/
def updateDeploymentsBody (c : CacheRef) (e : Option DeploymentEvent) : Outcome :=
  match e with
  | none => ⟨[.panic nilDereference], true⟩
  | some ev =>
    match ev.Deployment with
    | none => ⟨[.panic nilDereference], true⟩
    | some d =>
      ⟨[.logInfo "Received event [%s] for deployment [%s]"
          [.eventType ev.EvType, .str d.Name]]
        ++ (match ev.EvType with
            | .Deleted => [.cache c (.removeDeployment d)]
            | .Added => [.cache c (.updateDeployment d)]
            | .Modified => [.cache c (.updateDeployment d)]
            | .unrecognised _ => [])
        ++ [.logDebugField "deployments" .deployment "Cached deployments"], false⟩

/-! ## The cache -/

/-- Modelled from the spec: one collection of `MrrCache` (the file that declares
`MrrCache` is missing), a mapping from resource key to the latest value of the
resource. -/
abbrev Collection (ρ : Type) := Key → Option ρ

/-- Modelled from the spec: a collection is created empty. -/
def Collection.empty {ρ : Type} : Collection ρ := fun _ => none

/-- Modelled from the spec: `upsert(resource)` of the missing `MrrCache` inserts
or overwrites the entry at the key of the resource. -/
def Collection.upsert {ρ : Type} (key : ρ → Key) (r : ρ) (m : Collection ρ) : Collection ρ :=
  fun k => if k = key r then some r else m k

/-- Modelled from the spec: `remove(resource)` of the missing `MrrCache` deletes
the entry at the key of the resource if present, and is a no-op otherwise. -/
def Collection.remove {ρ : Type} (key : ρ → Key) (r : ρ) (m : Collection ρ) : Collection ρ :=
  fun k => if k = key r then none else m k

/-- Modelled from the spec: `replaceAll(resources)` of the missing `MrrCache`
discards the existing collection and installs the given resources, keyed by the
key of each. -/
def Collection.replaceAll {ρ : Type} (key : ρ → Key) (rs : List ρ) (_old : Collection ρ) :
    Collection ρ :=
  rs.foldl (fun m r => Collection.upsert key r m) Collection.empty

/-- Modelled from the spec: the state of the missing `MrrCache`, three
independent collections, one per kind. -/
structure MrrCache where
  pods : Collection Pod
  services : Collection Service
  deployments : Collection Deployment

/-- Modelled from the spec: the cache at process start. -/
def MrrCache.empty : MrrCache := ⟨Collection.empty, Collection.empty, Collection.empty⟩

/-- Modelled from the spec: the effect of each write operation of the missing
`MrrCache` on its state (`update*` is upsert, `remove*` is remove, `set*` is
replace-all). -/
def MrrCache.perform (m : MrrCache) : CacheOp → MrrCache
  | .removePod p => { m with pods := Collection.remove Pod.key p m.pods }
  | .updatePod p => { m with pods := Collection.upsert Pod.key p m.pods }
  | .setPods ps => { m with pods := Collection.replaceAll Pod.key ps m.pods }
  | .removeService s => { m with services := Collection.remove Service.key s m.services }
  | .updateService s => { m with services := Collection.upsert Service.key s m.services }
  | .setServices ss => { m with services := Collection.replaceAll Service.key ss m.services }
  | .removeDeployment d =>
      { m with deployments := Collection.remove Deployment.key d m.deployments }
  | .updateDeployment d =>
      { m with deployments := Collection.upsert Deployment.key d m.deployments }
  | .setDeployments ds =>
      { m with deployments := Collection.replaceAll Deployment.key ds m.deployments }

/-- The state of the cache `c` after a list of effects: the cache operations
addressed to `c` are performed in order, every other effect leaves it alone. -/
def applyTo (c : CacheRef) (m : MrrCache) : List Effect → MrrCache
  | [] => m
  | .cache c' op :: rest => applyTo c (if c' = c then m.perform op else m) rest
  | _ :: rest => applyTo c m rest

/-! ## The apply routines, event after event -/

/-- An apply routine after some events: the state of its cache, what it did so
far, and whether a panic ended it. -/
structure Applied where
  cache : MrrCache
  trace : List Effect
  crashed : Bool

/-- One turn of the endless `for` of an `update` closure: the body runs on the
event taken from the channel. A panic ends the routine (and the process). -/
def runBody {ε : Type} (c : CacheRef) (body : ε → Outcome) (s : Applied) (e : ε) : Applied :=
  if s.crashed then s
  else
    ⟨applyTo c s.cache (body e).effects, s.trace ++ (body e).effects, (body e).panicked⟩

/-- The `update` closure of `loopWatchPods` on the cache `c` in state `m`, for
the events `received` from the channel, in order. -/
def updatePods (c : CacheRef) (m : MrrCache) (received : List (Option PodEvent)) : Applied :=
  received.foldl (runBody c (updatePodsBody c)) ⟨m, [], false⟩

/-- The `update` closure of `loopWatchServices`. -/
def updateServices (c : CacheRef) (m : MrrCache) (received : List (Option ServiceEvent)) :
    Applied :=
  received.foldl (runBody c (updateServicesBody c)) ⟨m, [], false⟩

/-- The `update` closure of `loopWatchDeployments`. -/
def updateDeployments (c : CacheRef) (m : MrrCache)
    (received : List (Option DeploymentEvent)) : Applied :=
  received.foldl (runBody c (updateDeploymentsBody c)) ⟨m, [], false⟩

/-- A pod event as the specification describes it: a non-nil event of type
`Added`, `Modified` or `Deleted` that carries a pod. -/
def wellFormedPodEvent : Option PodEvent → Bool
  | some ⟨.Added, some _⟩ => true
  | some ⟨.Modified, some _⟩ => true
  | some ⟨.Deleted, some _⟩ => true
  | _ => false

/-- Does the event carry a pod with key `K`? -/
def concernsPod (K : Key) : Option PodEvent → Bool
  | some ⟨_, some p⟩ => decide (p.key = K)
  | _ => false

/-- The last event of the sequence that concerns the key `K`, if any. -/
def lastPodEventFor (K : Key) (evs : List (Option PodEvent)) : Option PodEvent :=
  (evs.reverse.find? (concernsPod K)).join

/-- A service event as the specification describes it. -/
def wellFormedServiceEvent : Option ServiceEvent → Bool
  | some ⟨.Added, some _⟩ => true
  | some ⟨.Modified, some _⟩ => true
  | some ⟨.Deleted, some _⟩ => true
  | _ => false

/-- Does the event carry a service with key `K`? -/
def concernsService (K : Key) : Option ServiceEvent → Bool
  | some ⟨_, some s⟩ => decide (s.key = K)
  | _ => false

/-- The last event of the sequence that concerns the key `K`, if any. -/
def lastServiceEventFor (K : Key) (evs : List (Option ServiceEvent)) : Option ServiceEvent :=
  (evs.reverse.find? (concernsService K)).join

/-- A deployment event as the specification describes it. -/
def wellFormedDeploymentEvent : Option DeploymentEvent → Bool
  | some ⟨.Added, some _⟩ => true
  | some ⟨.Modified, some _⟩ => true
  | some ⟨.Deleted, some _⟩ => true
  | _ => false

/-- Does the event carry a deployment with key `K`? -/
def concernsDeployment (K : Key) : Option DeploymentEvent → Bool
  | some ⟨_, some d⟩ => decide (d.key = K)
  | _ => false

/-- The last event of the sequence that concerns the key `K`, if any. -/
def lastDeploymentEventFor (K : Key) (evs : List (Option DeploymentEvent)) :
    Option DeploymentEvent :=
  (evs.reverse.find? (concernsDeployment K)).join

/-! ## The stream routines (the `watch` closures) -/

/-- How a blocking call ends: it never returns, or it returns an error value
(`none` is the nil error). -/
inductive CallReturn
  | hangs
  | returns (err : Option String)
deriving DecidableEq, Repr

/-- The body of the `for` of `watch` in `loopWatchPods`, up to the moment the
call `kc.WatchPods(events)` is made. -/
def watchPodsCall (kc : ClientRef) (events : ChanRef) : List Effect :=
  [.logInfo "Started to watch pods" [], .watch kc .pod events]

/-- The rest of the body of the `for` of `watch` in `loopWatchPods`, once the
call has returned `err`. -/
def watchPodsReturned (err : Option String) : List Effect :=
  match err with
  | some e => [.logInfo "Disruption while watching pods: %s" [.str e]]
  | none => []

/-- The `watch` closure of `loopWatchPods`, as far as it gets when the calls of
`kc.WatchPods` made so far returned the values `returned`, in order: it is then
inside its next call. -/
def watchPods (kc : ClientRef) (events : ChanRef) : List (Option String) → List Effect
  | [] => watchPodsCall kc events
  | err :: rest => watchPodsCall kc events ++ watchPodsReturned err ++ watchPods kc events rest

/-- The body of the `for` of `watch` in `loopWatchServices`, up to the call. -/
def watchServicesCall (kc : ClientRef) (events : ChanRef) : List Effect :=
  [.logInfo "Started to watch services" [], .watch kc .service events]

/-- The rest of the body of the `for` of `watch` in `loopWatchServices`. -/
def watchServicesReturned (err : Option String) : List Effect :=
  match err with
  | some e => [.logInfo "Disruption while watching services: %s" [.str e]]
  | none => []

/-- The `watch` closure of `loopWatchServices` (see `watchPods`). -/
def watchServices (kc : ClientRef) (events : ChanRef) : List (Option String) → List Effect
  | [] => watchServicesCall kc events
  | err :: rest =>
      watchServicesCall kc events ++ watchServicesReturned err ++ watchServices kc events rest

/-- The body of the `for` of `watch` in `loopWatchDeployments`, up to the call. -/
def watchDeploymentsCall (kc : ClientRef) (events : ChanRef) : List Effect :=
  [.logInfo "Started to watch deployments" [], .watch kc .deployment events]

/-- The rest of the body of the `for` of `watch` in `loopWatchDeployments`; the
message names services, as the source does. -/
def watchDeploymentsReturned (err : Option String) : List Effect :=
  match err with
  | some e => [.logInfo "Disruption while watching services: %s" [.str e]]
  | none => []

/-- The `watch` closure of `loopWatchDeployments` (see `watchPods`). -/
def watchDeployments (kc : ClientRef) (events : ChanRef) : List (Option String) → List Effect
  | [] => watchDeploymentsCall kc events
  | err :: rest =>
      watchDeploymentsCall kc events ++ watchDeploymentsReturned err
        ++ watchDeployments kc events rest

/-- The calls of the blocking watch among a list of effects, in order. -/
def watchCalls : List Effect → List (ClientRef × Kind × ChanRef)
  | [] => []
  | .watch kc k events :: rest => (kc, k, events) :: watchCalls rest
  | _ :: rest => watchCalls rest

/-! ## The watch loops -/

/-- The function `loopWatchPods`: it makes the channel (`events` is the channel
that `make` returns) and starts the two closures. -/
def loopWatchPods (c : CacheRef) (kc : ClientRef) (events : ChanRef) : List Effect :=
  [.makeChan events, .go (.watchPods kc events), .go (.updatePods c events)]

/-- The function `loopWatchServices`. -/
def loopWatchServices (c : CacheRef) (kc : ClientRef) (events : ChanRef) : List Effect :=
  [.makeChan events, .go (.watchServices kc events), .go (.updateServices c events)]

/-- The function `loopWatchDeployments`. -/
def loopWatchDeployments (c : CacheRef) (kc : ClientRef) (events : ChanRef) : List Effect :=
  [.makeChan events, .go (.watchDeployments kc events), .go (.updateDeployments c events)]

/-! ## The refresh loops -/

/-- The two values returned by a one-shot listing: a slice (`none` is the nil
slice, `some []` a non-nil slice of length 0) and an error (`none` is nil). -/
structure Listing (ρ : Type) where
  list : Option (List ρ)
  err : Option String

/-- One cycle of `loopUpdatePods`: from the call of `kc.GetPods()`, which
returns `r`, to the end of `time.Sleep(interval)`. -/
def loopUpdatePodsCycle (c : CacheRef) (kc : ClientRef) (interval : Nat) (r : Listing Pod) :
    List Effect :=
  [.list kc .pod]
    ++ (match r.err with
        | some e => [.logInfo "Could not get pods from %v: %v" [.baseURL kc, .str e]]
        | none => [])
    ++ (match r.list with
        | some pods =>
            [.logInfo "Received %d pods from %v" [.num pods.length, .baseURL kc],
             .cache c (.setPods pods)]
        | none => [])
    ++ [.sleep interval]

/-- The function `loopUpdatePods`, as far as it gets when the calls of
`kc.GetPods()` made so far returned `results`, in order: it is then inside its
next call. -/
def loopUpdatePods (c : CacheRef) (kc : ClientRef) (interval : Nat) :
    List (Listing Pod) → List Effect
  | [] => [.list kc .pod]
  | r :: rest => loopUpdatePodsCycle c kc interval r ++ loopUpdatePods c kc interval rest

/-- One cycle of `loopUpdateServices`. -/
def loopUpdateServicesCycle (c : CacheRef) (kc : ClientRef) (interval : Nat)
    (r : Listing Service) : List Effect :=
  [.list kc .service]
    ++ (match r.err with
        | some e => [.logInfo "Could not get services from %v: %v" [.baseURL kc, .str e]]
        | none => [])
    ++ (match r.list with
        | some services =>
            [.logInfo "Received %d services from %v" [.num services.length, .baseURL kc],
             .cache c (.setServices services)]
        | none => [])
    ++ [.sleep interval]

/-- The function `loopUpdateServices` (see `loopUpdatePods`). -/
def loopUpdateServices (c : CacheRef) (kc : ClientRef) (interval : Nat) :
    List (Listing Service) → List Effect
  | [] => [.list kc .service]
  | r :: rest =>
      loopUpdateServicesCycle c kc interval r ++ loopUpdateServices c kc interval rest

/-- One cycle of `loopUpdateDeployments`. -/
def loopUpdateDeploymentsCycle (c : CacheRef) (kc : ClientRef) (interval : Nat)
    (r : Listing Deployment) : List Effect :=
  [.list kc .deployment]
    ++ (match r.err with
        | some e => [.logInfo "Could not get deployments from %v: %v" [.baseURL kc, .str e]]
        | none => [])
    ++ (match r.list with
        | some deployments =>
            [.logInfo "Received %d deployments from %v"
               [.num deployments.length, .baseURL kc],
             .cache c (.setDeployments deployments)]
        | none => [])
    ++ [.sleep interval]

/-- The function `loopUpdateDeployments` (see `loopUpdatePods`). -/
def loopUpdateDeployments (c : CacheRef) (kc : ClientRef) (interval : Nat) :
    List (Listing Deployment) → List Effect
  | [] => [.list kc .deployment]
  | r :: rest =>
      loopUpdateDeploymentsCycle c kc interval r ++ loopUpdateDeployments c kc interval rest

/-- The calls of the one-shot listing among a list of effects, in order. -/
def listCalls : List Effect → List (ClientRef × Kind)
  | [] => []
  | .list kc k :: rest => (kc, k) :: listCalls rest
  | _ :: rest => listCalls rest

/-- The resources that are in a collection. -/
def Collection.entries {ρ : Type} (m : Collection ρ) : Set ρ := fun r => ∃ k, m k = some r

/-! ## `RunWatch` -/

/-- The factory `f` handed to `RunWatch` (its declaration is missing): the cache
that `f.MrrCache()` returns, the client that `f.KubeClient(url)` returns, and
how `f.Serve(l, c)` ends. -/
structure Factory where
  MrrCache : CacheRef
  KubeClient : String → ClientRef
  Serve : Listener → CacheRef → CallReturn

/-- What `RunWatch` asks of the world outside the program: the address that
`GetBind(cmd)` returns, the result of `net.Listen("tcp", bind)` and the result
of `url.ParseRequestURI`. -/
structure World where
  bind : String
  listen : String → Except String Listener
  parseRequestURI : String → Except String String

/-- The function `RunWatch`, on the goroutine that calls it. The three channels
made by the three watch loops are numbered in the order they are made. -/
def RunWatch (f : Factory) (w : World) (args : List String) : List Effect :=
  match args with
  | [arg] =>
    match w.listen w.bind with
    | .error err =>
        [.listen w.bind,
         .stderr "Kube Mirror failed to bind on %s: %v" [.str w.bind, .str err]]
    | .ok l =>
      match w.parseRequestURI arg with
      | .error err =>
          [.listen w.bind, .stderr "Could not parse [%s] as URL: %v" [.str arg, .str err]]
      | .ok url =>
          [.listen w.bind, .logInfo "Kube Mirror is listening on %s" [.str w.bind],
           .mrrCache, .kubeClient url]
            ++ loopWatchPods f.MrrCache (f.KubeClient url) ⟨0⟩
            ++ loopWatchServices f.MrrCache (f.KubeClient url) ⟨1⟩
            ++ loopWatchDeployments f.MrrCache (f.KubeClient url) ⟨2⟩
            ++ [.serve l f.MrrCache]
            ++ (match f.Serve l f.MrrCache with
                | .hangs => []
                | .returns (some err) =>
                    [.stderr "Kube Mirror encounered unexpected error: %v" [.str err]]
                | .returns none => [.logPrintln "Kube Mirror has stopped"])
  | _ => [.stderr "You must specify URL of Kubernetes API" []]

/-- The goroutines started by a list of effects, in order. -/
def started : List Effect → List Routine
  | [] => []
  | .go r :: rest => r :: started rest
  | _ :: rest => started rest

/-- The writes to stderr among a list of effects, in order. -/
def stderrWrites : List Effect → List (String × List LogArg)
  | [] => []
  | .stderr format args :: rest => (format, args) :: stderrWrites rest
  | _ :: rest => stderrWrites rest

/-- The calls of `f.Serve` among a list of effects, in order. -/
def serveCalls : List Effect → List (Listener × CacheRef)
  | [] => []
  | .serve l c :: rest => (l, c) :: serveCalls rest
  | _ :: rest => serveCalls rest

/-- Does the effect obtain the cache or the client from the factory? -/
def Effect.obtains : Effect → Bool
  | .mrrCache => true
  | .kubeClient _ => true
  | _ => false

/-- Is the effect a call of the one-shot listing or of a replace-all? -/
def Effect.refreshes : Effect → Bool
  | .list _ _ => true
  | .cache _ op => op.isReplaceAll
  | _ => false

/-- What the outside world hands to the goroutines of one run: for each kind,
the values returned by the watch calls that returned, and the events that the
apply routine took from the channel. -/
structure Feed where
  podReturns : List (Option String)
  podEvents : List (Option PodEvent)
  serviceReturns : List (Option String)
  serviceEvents : List (Option ServiceEvent)
  deploymentReturns : List (Option String)
  deploymentEvents : List (Option DeploymentEvent)

/-- What a started goroutine does, given what the outside world hands to it;
`m` is the state of the cache when it starts. -/
def runRoutine (m : MrrCache) (feed : Feed) : Routine → List Effect
  | .watchPods kc events => watchPods kc events feed.podReturns
  | .updatePods c _ => (updatePods c m feed.podEvents).trace
  | .watchServices kc events => watchServices kc events feed.serviceReturns
  | .updateServices c _ => (updateServices c m feed.serviceEvents).trace
  | .watchDeployments kc events => watchDeployments kc events feed.deploymentReturns
  | .updateDeployments c _ => (updateDeployments c m feed.deploymentEvents).trace

/-- Every effect of one run of `RunWatch`: those of `RunWatch` itself, then
those of each goroutine that it started. -/
def allEffects (f : Factory) (w : World) (args : List String) (m : MrrCache)
    (feed : Feed) : List Effect :=
  RunWatch f w args ++ (started (RunWatch f w args)).flatMap (runRoutine m feed)

/-! ## A watch loop as two goroutines and a channel -/

/-- A Go channel: its capacity and the values it holds. -/
structure Chan (ε : Type) where
  cap : Nat
  buf : List ε

/-- The channel that `make(chan T)` returns: with no size argument, as in the
three watch loops, its capacity is 0. -/
def Chan.make (ε : Type) : Chan ε := ⟨0, []⟩

/-- Where the stream routine is: at the head of its `for`, or inside the watch
call, where the client still has `toSend` to forward into the channel before
the call ends with `ret`. -/
inductive StreamPc (ε : Type)
  | top
  | inCall (toSend : List ε) (ret : CallReturn)

/-- Where the apply routine is: waiting at `e := <-events`, or holding the
event it took, with the body still to run. -/
inductive ApplyPc (ε : Type)
  | receiving
  | holding (e : ε)

/-- What the client does during one watch call: the events it forwards, in
order, and how the call ends. -/
structure WatchScript (ε : Type) where
  sends : List ε
  ret : CallReturn

/-- The code of the two closures of one watch loop. -/
structure LoopCode (ε : Type) where
  call : List Effect
  returned : Option String → List Effect
  body : ε → Outcome
  c : CacheRef

/-- The closures of `loopWatchPods`. -/
def podsLoop (c : CacheRef) (kc : ClientRef) (events : ChanRef) : LoopCode (Option PodEvent) :=
  ⟨watchPodsCall kc events, watchPodsReturned, updatePodsBody c, c⟩

/-- The closures of `loopWatchServices`. -/
def servicesLoop (c : CacheRef) (kc : ClientRef) (events : ChanRef) :
    LoopCode (Option ServiceEvent) :=
  ⟨watchServicesCall kc events, watchServicesReturned, updateServicesBody c, c⟩

/-- The closures of `loopWatchDeployments`. -/
def deploymentsLoop (c : CacheRef) (kc : ClientRef) (events : ChanRef) :
    LoopCode (Option DeploymentEvent) :=
  ⟨watchDeploymentsCall kc events, watchDeploymentsReturned, updateDeploymentsBody c, c⟩

/-- The state of one watch loop: the number of watch calls made, where each of
the two goroutines is, the channel between them, the cache, what was done so
far, and whether a panic ended the process. -/
structure LoopState (ε : Type) where
  calls : Nat
  stream : StreamPc ε
  apply : ApplyPc ε
  events : Chan ε
  cache : MrrCache
  trace : List Effect
  crashed : Bool

/-- The state in which a watch loop starts: both goroutines at the head of their
loop, the channel fresh from `make`. -/
def LoopState.init (ε : Type) (m : MrrCache) : LoopState ε :=
  ⟨0, .top, .receiving, Chan.make ε, m, [], false⟩

/-- One step of the stream routine, `none` when it cannot move. At the head of
the loop it logs and makes the next call. Inside a call, the client forwards its
next event: the send completes at once when the apply routine is waiting to
receive, or when the channel has room; otherwise the sender has to wait. When
the client has nothing left to send the call returns, and the error is logged. -/
def streamStep {ε : Type} (code : LoopCode ε) (client : Nat → WatchScript ε)
    (s : LoopState ε) : Option (LoopState ε) :=
  if s.crashed then none
  else
    match s.stream with
    | .top =>
        some { s with
          stream := .inCall (client s.calls).sends (client s.calls).ret
          calls := s.calls + 1
          trace := s.trace ++ code.call }
    | .inCall (e :: rest) ret =>
        match s.apply, s.events.buf with
        | .receiving, [] => some { s with apply := .holding e, stream := .inCall rest ret }
        | _, buf =>
            if buf.length < s.events.cap then
              some { s with events := ⟨s.events.cap, buf ++ [e]⟩, stream := .inCall rest ret }
            else none
    | .inCall [] .hangs => none
    | .inCall [] (.returns err) =>
        some { s with stream := .top, trace := s.trace ++ code.returned err }

/-- One step of the apply routine, `none` when it cannot move. Waiting, it takes
the oldest event that the channel holds, if any (an event sent while it waits is
handed to it by the step of the sender). Holding an event, it runs the body. -/
def applyStep {ε : Type} (code : LoopCode ε) (s : LoopState ε) : Option (LoopState ε) :=
  if s.crashed then none
  else
    match s.apply with
    | .receiving =>
        match s.events.buf with
        | e :: rest => some { s with apply := .holding e, events := ⟨s.events.cap, rest⟩ }
        | [] => none
    | .holding e =>
        some { s with
          apply := .receiving
          cache := applyTo code.c s.cache (code.body e).effects
          trace := s.trace ++ (code.body e).effects
          crashed := (code.body e).panicked }

/-- The two goroutines of a watch loop. -/
inductive Tid
  | stream
  | apply
deriving DecidableEq, Repr

/-- One step of the goroutine chosen by the scheduler. -/
def loopStep {ε : Type} (code : LoopCode ε) (client : Nat → WatchScript ε) (s : LoopState ε) :
    Tid → Option (LoopState ε)
  | .stream => streamStep code client s
  | .apply => applyStep code s

/-- The watch loop under a schedule: the chosen goroutine moves if it can, and
the state stays as it is if it cannot. -/
def exec {ε : Type} (code : LoopCode ε) (client : Nat → WatchScript ε) :
    List Tid → LoopState ε → LoopState ε
  | [], s => s
  | t :: rest, s => exec code client rest ((loopStep code client s t).getD s)

/-- Has the stream routine an event that it is about to forward? -/
def LoopState.forwarding {ε : Type} (s : LoopState ε) : Bool :=
  match s.stream with
  | .inCall (_ :: _) _ => true
  | _ => false

/-- Is the apply routine waiting to receive? -/
def LoopState.applyWaiting {ε : Type} (s : LoopState ε) : Bool :=
  match s.apply with
  | .receiving => true
  | .holding _ => false

/-! ## Concrete resources used in the scenarios -/

/-- Pod `A`. -/
def podA : Pod := ⟨"A", "default", "v1"⟩

/-- Pod `A'`: the pod `A` with a later payload. -/
def podA' : Pod := ⟨"A", "default", "v2"⟩

/-- Pod `B`. -/
def podB : Pod := ⟨"B", "default", "v1"⟩

/-- Service `S`. -/
def serviceS : Service := ⟨"S", "default", "v1"⟩

/-- Deployment `X`. -/
def deploymentX : Deployment := ⟨"X", "default", "v1"⟩

/-- Deployment `Y`. -/
def deploymentY : Deployment := ⟨"Y", "default", "v1"⟩

/-- Deployment `Z`. -/
def deploymentZ : Deployment := ⟨"Z", "default", "v1"⟩

/-- What the collection of pods holds at the key `K` after the events `evs`,
according to the specification: the pod of the last event for `K` when that
event is `Added` or `Modified`, nothing otherwise. -/
def expectedPod (K : Key) (evs : List (Option PodEvent)) : Option Pod :=
  match lastPodEventFor K evs with
  | some ⟨.Added, p⟩ => p
  | some ⟨.Modified, p⟩ => p
  | _ => none

/-- What the collection of services holds at the key `K` after the events `evs`,
according to the specification: the service of the last event for `K` when that
event is `Added` or `Modified`, nothing otherwise. -/
def expectedService (K : Key) (evs : List (Option ServiceEvent)) : Option Service :=
  match lastServiceEventFor K evs with
  | some ⟨.Added, p⟩ => p
  | some ⟨.Modified, p⟩ => p
  | _ => none

/-- What the collection of deployments holds at the key `K` after the events `evs`,
according to the specification: the deployment of the last event for `K` when that
event is `Added` or `Modified`, nothing otherwise. -/
def expectedDeployment (K : Key) (evs : List (Option DeploymentEvent)) : Option Deployment :=
  match lastDeploymentEventFor K evs with
  | some ⟨.Added, p⟩ => p
  | some ⟨.Modified, p⟩ => p
  | _ => none

/-- The cache that holds the deployments `X` and `Z` and nothing else. -/
def cacheXZ : MrrCache :=
  (MrrCache.empty.perform (.updateDeployment deploymentX)).perform
    (.updateDeployment deploymentZ)

/-- The cache that holds the pod `B` and nothing else. -/
def cacheB : MrrCache := MrrCache.empty.perform (.updatePod podB)

/-- The three conditions under which `RunWatch` goes on to start the mirror:
exactly one argument, a bind that succeeds, an argument that parses. -/
def startConditions (w : World) (args : List String) : Bool :=
  match args with
  | [arg] =>
    match w.listen w.bind, w.parseRequestURI arg with
    | .ok _, .ok _ => true
    | _, _ => false
  | _ => false

/-- The states that the services loop can be in before the apply routine has run
its body, when the first watch call fails at once with `err` and the second
delivers `Added(S)` first: nothing has been done on the cache `m`, no panic, an
empty channel, and the two goroutines are at one of five places. -/
def beforeApply (m : MrrCache) (S : Service) (err : String) (ret : CallReturn)
    (s : LoopState (Option ServiceEvent)) : Prop :=
  s.crashed = false ∧ s.events.cap = 0 ∧ s.events.buf = [] ∧ cacheOps s.trace = []
    ∧ s.cache = m
    ∧ ((s.calls = 0 ∧ s.stream = .top ∧ s.apply = .receiving)
      ∨ (s.calls = 1 ∧ s.stream = .inCall [] (.returns (some err)) ∧ s.apply = .receiving)
      ∨ (s.calls = 1 ∧ s.stream = .top ∧ s.apply = .receiving)
      ∨ (s.calls = 2 ∧ s.stream = .inCall [some ⟨.Added, some S⟩] ret
          ∧ s.apply = .receiving)
      ∨ s.apply = .holding (some ⟨.Added, some S⟩))

/-! ## Theorems -/

/-- C1, as stated, fails: on the pod event of type `Deleted` whose resource
pointer is nil, the apply routine of `loopWatchPods` panics while it evaluates
the arguments of its first log call and performs no cache operation at all,
where the claim has exactly one remove; the same holds for an `Added` service
event and a `Modified` deployment event without a resource. -/
theorem deleted_event_without_resource_no_cache_operation :
    (PodEvent.mk .Deleted none).EvType = .Deleted
    ∧ cacheOps (updatePodsBody ⟨0⟩ (some ⟨.Deleted, none⟩)).effects = []
    ∧ (¬ ∃ op, cacheOps (updatePodsBody ⟨0⟩ (some ⟨.Deleted, none⟩)).effects = [op])
    ∧ (updatePodsBody ⟨0⟩ (some ⟨.Deleted, none⟩)).panicked = true
    ∧ (¬ ∃ op, cacheOps (updateServicesBody ⟨0⟩ (some ⟨.Added, none⟩)).effects = [op])
    ∧ (updateServicesBody ⟨0⟩ (some ⟨.Added, none⟩)).panicked = true
    ∧ (¬ ∃ op, cacheOps (updateDeploymentsBody ⟨0⟩ (some ⟨.Modified, none⟩)).effects = [op])
    ∧ (updateDeploymentsBody ⟨0⟩ (some ⟨.Modified, none⟩)).panicked = true := by
  refine ⟨rfl, rfl, ?_, rfl, ?_, rfl, ?_, rfl⟩
  · rintro ⟨op, h⟩
    simp [updatePodsBody, cacheOps] at h
  · rintro ⟨op, h⟩
    simp [updateServicesBody, cacheOps] at h
  · rintro ⟨op, h⟩
    simp [updateDeploymentsBody, cacheOps] at h

/-- C1, amended: for each of the three kinds, an apply routine that receives a
non-nil event carrying a non-nil resource performs exactly one cache operation
when the type of the event is `Deleted` (the remove of that kind, on that
resource) and exactly one when it is `Added` or `Modified` (the update of that
kind, on that resource); nothing it does reads or writes the collection of
another kind, and it does not panic. -/
theorem apply_routine_dispatch (c : CacheRef)
    (pe : PodEvent) (p : Pod) (hp : pe.Pod = some p)
    (se : ServiceEvent) (s : Service) (hs : se.Service = some s)
    (de : DeploymentEvent) (d : Deployment) (hd : de.Deployment = some d) :
    ((pe.EvType = .Deleted →
          cacheOps (updatePodsBody c (some pe)).effects = [(c, .removePod p)])
      ∧ (pe.EvType = .Added ∨ pe.EvType = .Modified →
          cacheOps (updatePodsBody c (some pe)).effects = [(c, .updatePod p)])
      ∧ (∀ eff ∈ (updatePodsBody c (some pe)).effects,
          ∀ k, eff.collection = some k → k = .pod)
      ∧ (updatePodsBody c (some pe)).panicked = false)
    ∧ ((se.EvType = .Deleted →
          cacheOps (updateServicesBody c (some se)).effects = [(c, .removeService s)])
      ∧ (se.EvType = .Added ∨ se.EvType = .Modified →
          cacheOps (updateServicesBody c (some se)).effects = [(c, .updateService s)])
      ∧ (∀ eff ∈ (updateServicesBody c (some se)).effects,
          ∀ k, eff.collection = some k → k = .service)
      ∧ (updateServicesBody c (some se)).panicked = false)
    ∧ ((de.EvType = .Deleted →
          cacheOps (updateDeploymentsBody c (some de)).effects = [(c, .removeDeployment d)])
      ∧ (de.EvType = .Added ∨ de.EvType = .Modified →
          cacheOps (updateDeploymentsBody c (some de)).effects = [(c, .updateDeployment d)])
      ∧ (∀ eff ∈ (updateDeploymentsBody c (some de)).effects,
          ∀ k, eff.collection = some k → k = .deployment)
      ∧ (updateDeploymentsBody c (some de)).panicked = false) := by
  obtain ⟨pt, pr⟩ := pe
  obtain ⟨st, sr⟩ := se
  obtain ⟨dt, dr⟩ := de
  simp only at hp hs hd
  subst hp hs hd
  refine ⟨?_, ?_, ?_⟩
  · cases pt <;> simp [updatePodsBody, cacheOps, Effect.collection, CacheOp.kind]
  · cases st <;> simp [updateServicesBody, cacheOps, Effect.collection, CacheOp.kind]
  · cases dt <;> simp [updateDeploymentsBody, cacheOps, Effect.collection, CacheOp.kind]

/-- Witness of C1, amended: a `Deleted` pod event, an `Added` service event and a
`Modified` deployment event. -/
theorem apply_routine_dispatch_witness :
    ((PodEvent.mk .Deleted (some podA)).EvType = .Deleted →
        cacheOps (updatePodsBody ⟨7⟩ (some ⟨.Deleted, some podA⟩)).effects
          = [(⟨7⟩, .removePod podA)])
    ∧ ((ServiceEvent.mk .Added (some serviceS)).EvType = .Added
          ∨ (ServiceEvent.mk .Added (some serviceS)).EvType = .Modified →
        cacheOps (updateServicesBody ⟨7⟩ (some ⟨.Added, some serviceS⟩)).effects
          = [(⟨7⟩, .updateService serviceS)])
    ∧ ((DeploymentEvent.mk .Modified (some deploymentX)).EvType = .Added
          ∨ (DeploymentEvent.mk .Modified (some deploymentX)).EvType = .Modified →
        cacheOps (updateDeploymentsBody ⟨7⟩ (some ⟨.Modified, some deploymentX⟩)).effects
          = [(⟨7⟩, .updateDeployment deploymentX)]) :=
  have h := apply_routine_dispatch ⟨7⟩ ⟨.Deleted, some podA⟩ podA rfl
    ⟨.Added, some serviceS⟩ serviceS rfl ⟨.Modified, some deploymentX⟩ deploymentX rfl
  ⟨h.1.1, h.2.1.2.1, h.2.2.2.1⟩

/-- C7: an event whose resource pointer is nil, and a nil event, make the apply
routine of each kind panic before it logs anything: no log entry is emitted and
the routine does not go on to the next event. An unrecognised type on an event
that carries a resource is logged, causes no cache operation and no panic. -/
theorem nil_resource_event_panics :
    (∀ c t, updatePodsBody c (some ⟨t, none⟩) = ⟨[.panic nilDereference], true⟩)
    ∧ (∀ c t, updateServicesBody c (some ⟨t, none⟩) = ⟨[.panic nilDereference], true⟩)
    ∧ (∀ c t, updateDeploymentsBody c (some ⟨t, none⟩) = ⟨[.panic nilDereference], true⟩)
    ∧ (∀ c, updatePodsBody c none = ⟨[.panic nilDereference], true⟩)
    ∧ (∀ c, updateServicesBody c none = ⟨[.panic nilDereference], true⟩)
    ∧ (∀ c, updateDeploymentsBody c none = ⟨[.panic nilDereference], true⟩)
    ∧ (updatePods ⟨0⟩ MrrCache.empty
          [some ⟨.unrecognised "ERROR", none⟩, some ⟨.Added, some podA⟩]).crashed = true
    ∧ (updatePods ⟨0⟩ MrrCache.empty
          [some ⟨.unrecognised "ERROR", none⟩, some ⟨.Added, some podA⟩]).trace
        = [.panic nilDereference]
    ∧ ((updatePods ⟨0⟩ MrrCache.empty
          [some ⟨.unrecognised "ERROR", none⟩, some ⟨.Added, some podA⟩]).trace.any
            Effect.isLog) = false
    ∧ (updatePods ⟨0⟩ MrrCache.empty
          [some ⟨.unrecognised "ERROR", none⟩, some ⟨.Added, some podA⟩]).cache.pods podA.key
        = none
    ∧ (updatePods ⟨0⟩ MrrCache.empty [some ⟨.Added, some podA⟩]).cache.pods podA.key
        = some podA
    ∧ (∀ c raw p,
        updatePodsBody c (some ⟨.unrecognised raw, some p⟩)
          = ⟨[.logInfo "Received event [%s] for pod [%s]"
                [.eventType (.unrecognised raw), .str p.Name],
              .logDebugField "pods" .pod "Cached pods"], false⟩) := by
  refine ⟨?_, ?_, ?_, ?_, ?_, ?_, ?_, ?_, ?_, ?_, ?_, ?_⟩
  · intro c t; rfl
  · intro c t; rfl
  · intro c t; rfl
  · intro c; rfl
  · intro c; rfl
  · intro c; rfl
  · decide
  · decide
  · decide
  · decide
  · decide
  · intro c raw p; rfl

theorem updatePods_snoc (c : CacheRef) (m : MrrCache) (evs : List (Option PodEvent))
    (e : Option PodEvent) :
    updatePods c m (evs ++ [e]) = runBody c (updatePodsBody c) (updatePods c m evs) e := by
  simp [updatePods, List.foldl_append]

theorem runBody_updatePods_wellFormed (c : CacheRef) (s : Applied) (e : Option PodEvent)
    (hs : s.crashed = false) (he : wellFormedPodEvent e = true) :
    ∃ t p, e = some ⟨t, some p⟩
      ∧ (runBody c (updatePodsBody c) s e).crashed = false
      ∧ (runBody c (updatePodsBody c) s e).cache.services = s.cache.services
      ∧ (runBody c (updatePodsBody c) s e).cache.deployments = s.cache.deployments
      ∧ (runBody c (updatePodsBody c) s e).cache.pods
          = if t = .Deleted then Collection.remove Pod.key p s.cache.pods
            else Collection.upsert Pod.key p s.cache.pods := by
  match e, he with
  | some ⟨.Added, some p⟩, _ =>
    exact ⟨_, p, rfl, by simp [runBody, hs, updatePodsBody, applyTo, MrrCache.perform]⟩
  | some ⟨.Modified, some p⟩, _ =>
    exact ⟨_, p, rfl, by simp [runBody, hs, updatePodsBody, applyTo, MrrCache.perform]⟩
  | some ⟨.Deleted, some p⟩, _ =>
    exact ⟨_, p, rfl, by simp [runBody, hs, updatePodsBody, applyTo, MrrCache.perform]⟩

theorem lastPodEventFor_snoc (K : Key) (evs : List (Option PodEvent)) (t : EventType) (p : Pod) :
    lastPodEventFor K (evs ++ [some ⟨t, some p⟩])
      = if p.key = K then some ⟨t, some p⟩ else lastPodEventFor K evs := by
  by_cases h : p.key = K <;> simp [lastPodEventFor, List.find?_cons, concernsPod, h]

theorem updatePods_wellFormed (c : CacheRef) (evs : List (Option PodEvent))
    (hwf : ∀ e ∈ evs, wellFormedPodEvent e = true) :
    (updatePods c MrrCache.empty evs).crashed = false
      ∧ (updatePods c MrrCache.empty evs).cache.services = Collection.empty
      ∧ (updatePods c MrrCache.empty evs).cache.deployments = Collection.empty
      ∧ ∀ K, (updatePods c MrrCache.empty evs).cache.pods K = expectedPod K evs := by
  induction evs using List.reverseRecOn with
  | nil =>
    refine ⟨rfl, rfl, rfl, ?_⟩
    intro K
    simp [updatePods, MrrCache.empty, Collection.empty, expectedPod, lastPodEventFor]
  | append_singleton evs e ih =>
    have ih' := ih (fun x hx => hwf x (by simp [hx]))
    obtain ⟨hc, hsv, hd, hp⟩ := ih'
    obtain ⟨t, p, rfl, h1, h2, h3, h4⟩ :=
      runBody_updatePods_wellFormed c (updatePods c MrrCache.empty evs) e hc
        (hwf e (by simp))
    rw [updatePods_snoc]
    refine ⟨h1, h2.trans hsv, h3.trans hd, ?_⟩
    intro K
    rw [h4]
    have hw : wellFormedPodEvent (some ⟨t, some p⟩) = true := hwf _ (by simp)
    unfold expectedPod
    rw [lastPodEventFor_snoc]
    by_cases hk : p.key = K
    · subst hk
      cases t <;> simp [Collection.remove, Collection.upsert, wellFormedPodEvent] at hw ⊢
    · have hk' : ¬ K = p.key := fun h => hk h.symm
      have := hp K
      unfold expectedPod at this
      cases t <;> simp [Collection.remove, Collection.upsert, hk, hk', this]

theorem lastPodEventFor_concerns (K : Key) (evs : List (Option PodEvent)) (ev : PodEvent)
    (h : lastPodEventFor K evs = some ev) : ∃ p, ev.Pod = some p ∧ p.key = K := by
  unfold lastPodEventFor at h
  cases hf : evs.reverse.find? (concernsPod K) with
  | none => simp [hf] at h
  | some x =>
    have hx := List.find?_some hf
    rw [hf] at h
    simp at h
    subst h
    obtain ⟨t, r⟩ := ev
    cases r with
    | none => simp [concernsPod] at hx
    | some p => exact ⟨p, rfl, by simpa [concernsPod] using hx⟩

theorem updatePods_lookup (c : CacheRef) (evs : List (Option PodEvent))
    (hwf : ∀ e ∈ evs, wellFormedPodEvent e = true) (K : Key) :
    ((∃ p, (updatePods c MrrCache.empty evs).cache.pods K = some p) ↔
        ∃ ev, lastPodEventFor K evs = some ev ∧ (ev.EvType = .Added ∨ ev.EvType = .Modified))
      ∧ (∀ ev, lastPodEventFor K evs = some ev → ev.EvType = .Added ∨ ev.EvType = .Modified →
          (updatePods c MrrCache.empty evs).cache.pods K = ev.Pod) := by
  have h := (updatePods_wellFormed c evs hwf).2.2.2 K
  unfold expectedPod at h
  cases hl : lastPodEventFor K evs with
  | none =>
    rw [hl] at h
    simp [h]
  | some ev =>
    obtain ⟨p, hp, -⟩ := lastPodEventFor_concerns K evs ev hl
    obtain ⟨t, r⟩ := ev
    simp only at hp
    subst hp
    rw [hl] at h
    cases t <;> simp_all

theorem updateServices_snoc (c : CacheRef) (m : MrrCache) (evs : List (Option ServiceEvent))
    (e : Option ServiceEvent) :
    updateServices c m (evs ++ [e]) = runBody c (updateServicesBody c) (updateServices c m evs) e := by
  simp [updateServices, List.foldl_append]

theorem runBody_updateServices_wellFormed (c : CacheRef) (s : Applied) (e : Option ServiceEvent)
    (hs : s.crashed = false) (he : wellFormedServiceEvent e = true) :
    ∃ t p, e = some ⟨t, some p⟩
      ∧ (runBody c (updateServicesBody c) s e).crashed = false
      ∧ (runBody c (updateServicesBody c) s e).cache.pods = s.cache.pods
      ∧ (runBody c (updateServicesBody c) s e).cache.deployments = s.cache.deployments
      ∧ (runBody c (updateServicesBody c) s e).cache.services
          = if t = .Deleted then Collection.remove Service.key p s.cache.services
            else Collection.upsert Service.key p s.cache.services := by
  match e, he with
  | some ⟨.Added, some p⟩, _ =>
    exact ⟨_, p, rfl, by simp [runBody, hs, updateServicesBody, applyTo, MrrCache.perform]⟩
  | some ⟨.Modified, some p⟩, _ =>
    exact ⟨_, p, rfl, by simp [runBody, hs, updateServicesBody, applyTo, MrrCache.perform]⟩
  | some ⟨.Deleted, some p⟩, _ =>
    exact ⟨_, p, rfl, by simp [runBody, hs, updateServicesBody, applyTo, MrrCache.perform]⟩

theorem lastServiceEventFor_snoc (K : Key) (evs : List (Option ServiceEvent)) (t : EventType) (p : Service) :
    lastServiceEventFor K (evs ++ [some ⟨t, some p⟩])
      = if p.key = K then some ⟨t, some p⟩ else lastServiceEventFor K evs := by
  by_cases h : p.key = K <;> simp [lastServiceEventFor, List.find?_cons, concernsService, h]

theorem updateServices_wellFormed (c : CacheRef) (evs : List (Option ServiceEvent))
    (hwf : ∀ e ∈ evs, wellFormedServiceEvent e = true) :
    (updateServices c MrrCache.empty evs).crashed = false
      ∧ (updateServices c MrrCache.empty evs).cache.pods = Collection.empty
      ∧ (updateServices c MrrCache.empty evs).cache.deployments = Collection.empty
      ∧ ∀ K, (updateServices c MrrCache.empty evs).cache.services K = expectedService K evs := by
  induction evs using List.reverseRecOn with
  | nil =>
    refine ⟨rfl, rfl, rfl, ?_⟩
    intro K
    simp [updateServices, MrrCache.empty, Collection.empty, expectedService, lastServiceEventFor]
  | append_singleton evs e ih =>
    have ih' := ih (fun x hx => hwf x (by simp [hx]))
    obtain ⟨hc, hsv, hd, hp⟩ := ih'
    obtain ⟨t, p, rfl, h1, h2, h3, h4⟩ :=
      runBody_updateServices_wellFormed c (updateServices c MrrCache.empty evs) e hc
        (hwf e (by simp))
    rw [updateServices_snoc]
    refine ⟨h1, h2.trans hsv, h3.trans hd, ?_⟩
    intro K
    rw [h4]
    have hw : wellFormedServiceEvent (some ⟨t, some p⟩) = true := hwf _ (by simp)
    unfold expectedService
    rw [lastServiceEventFor_snoc]
    by_cases hk : p.key = K
    · subst hk
      cases t <;> simp [Collection.remove, Collection.upsert, wellFormedServiceEvent] at hw ⊢
    · have hk' : ¬ K = p.key := fun h => hk h.symm
      have := hp K
      unfold expectedService at this
      cases t <;> simp [Collection.remove, Collection.upsert, hk, hk', this]

theorem lastServiceEventFor_concerns (K : Key) (evs : List (Option ServiceEvent)) (ev : ServiceEvent)
    (h : lastServiceEventFor K evs = some ev) : ∃ p, ev.Service = some p ∧ p.key = K := by
  unfold lastServiceEventFor at h
  cases hf : evs.reverse.find? (concernsService K) with
  | none => simp [hf] at h
  | some x =>
    have hx := List.find?_some hf
    rw [hf] at h
    simp at h
    subst h
    obtain ⟨t, r⟩ := ev
    cases r with
    | none => simp [concernsService] at hx
    | some p => exact ⟨p, rfl, by simpa [concernsService] using hx⟩

theorem updateServices_lookup (c : CacheRef) (evs : List (Option ServiceEvent))
    (hwf : ∀ e ∈ evs, wellFormedServiceEvent e = true) (K : Key) :
    ((∃ p, (updateServices c MrrCache.empty evs).cache.services K = some p) ↔
        ∃ ev, lastServiceEventFor K evs = some ev ∧ (ev.EvType = .Added ∨ ev.EvType = .Modified))
      ∧ (∀ ev, lastServiceEventFor K evs = some ev → ev.EvType = .Added ∨ ev.EvType = .Modified →
          (updateServices c MrrCache.empty evs).cache.services K = ev.Service) := by
  have h := (updateServices_wellFormed c evs hwf).2.2.2 K
  unfold expectedService at h
  cases hl : lastServiceEventFor K evs with
  | none =>
    rw [hl] at h
    simp [h]
  | some ev =>
    obtain ⟨p, hp, -⟩ := lastServiceEventFor_concerns K evs ev hl
    obtain ⟨t, r⟩ := ev
    simp only at hp
    subst hp
    rw [hl] at h
    cases t <;> simp_all

theorem updateDeployments_snoc (c : CacheRef) (m : MrrCache) (evs : List (Option DeploymentEvent))
    (e : Option DeploymentEvent) :
    updateDeployments c m (evs ++ [e]) = runBody c (updateDeploymentsBody c) (updateDeployments c m evs) e := by
  simp [updateDeployments, List.foldl_append]

theorem runBody_updateDeployments_wellFormed (c : CacheRef) (s : Applied) (e : Option DeploymentEvent)
    (hs : s.crashed = false) (he : wellFormedDeploymentEvent e = true) :
    ∃ t p, e = some ⟨t, some p⟩
      ∧ (runBody c (updateDeploymentsBody c) s e).crashed = false
      ∧ (runBody c (updateDeploymentsBody c) s e).cache.services = s.cache.services
      ∧ (runBody c (updateDeploymentsBody c) s e).cache.pods = s.cache.pods
      ∧ (runBody c (updateDeploymentsBody c) s e).cache.deployments
          = if t = .Deleted then Collection.remove Deployment.key p s.cache.deployments
            else Collection.upsert Deployment.key p s.cache.deployments := by
  match e, he with
  | some ⟨.Added, some p⟩, _ =>
    exact ⟨_, p, rfl, by simp [runBody, hs, updateDeploymentsBody, applyTo, MrrCache.perform]⟩
  | some ⟨.Modified, some p⟩, _ =>
    exact ⟨_, p, rfl, by simp [runBody, hs, updateDeploymentsBody, applyTo, MrrCache.perform]⟩
  | some ⟨.Deleted, some p⟩, _ =>
    exact ⟨_, p, rfl, by simp [runBody, hs, updateDeploymentsBody, applyTo, MrrCache.perform]⟩

theorem lastDeploymentEventFor_snoc (K : Key) (evs : List (Option DeploymentEvent)) (t : EventType) (p : Deployment) :
    lastDeploymentEventFor K (evs ++ [some ⟨t, some p⟩])
      = if p.key = K then some ⟨t, some p⟩ else lastDeploymentEventFor K evs := by
  by_cases h : p.key = K <;> simp [lastDeploymentEventFor, List.find?_cons, concernsDeployment, h]

theorem updateDeployments_wellFormed (c : CacheRef) (evs : List (Option DeploymentEvent))
    (hwf : ∀ e ∈ evs, wellFormedDeploymentEvent e = true) :
    (updateDeployments c MrrCache.empty evs).crashed = false
      ∧ (updateDeployments c MrrCache.empty evs).cache.services = Collection.empty
      ∧ (updateDeployments c MrrCache.empty evs).cache.pods = Collection.empty
      ∧ ∀ K, (updateDeployments c MrrCache.empty evs).cache.deployments K = expectedDeployment K evs := by
  induction evs using List.reverseRecOn with
  | nil =>
    refine ⟨rfl, rfl, rfl, ?_⟩
    intro K
    simp [updateDeployments, MrrCache.empty, Collection.empty, expectedDeployment, lastDeploymentEventFor]
  | append_singleton evs e ih =>
    have ih' := ih (fun x hx => hwf x (by simp [hx]))
    obtain ⟨hc, hsv, hd, hp⟩ := ih'
    obtain ⟨t, p, rfl, h1, h2, h3, h4⟩ :=
      runBody_updateDeployments_wellFormed c (updateDeployments c MrrCache.empty evs) e hc
        (hwf e (by simp))
    rw [updateDeployments_snoc]
    refine ⟨h1, h2.trans hsv, h3.trans hd, ?_⟩
    intro K
    rw [h4]
    have hw : wellFormedDeploymentEvent (some ⟨t, some p⟩) = true := hwf _ (by simp)
    unfold expectedDeployment
    rw [lastDeploymentEventFor_snoc]
    by_cases hk : p.key = K
    · subst hk
      cases t <;> simp [Collection.remove, Collection.upsert, wellFormedDeploymentEvent] at hw ⊢
    · have hk' : ¬ K = p.key := fun h => hk h.symm
      have := hp K
      unfold expectedDeployment at this
      cases t <;> simp [Collection.remove, Collection.upsert, hk, hk', this]

theorem lastDeploymentEventFor_concerns (K : Key) (evs : List (Option DeploymentEvent)) (ev : DeploymentEvent)
    (h : lastDeploymentEventFor K evs = some ev) : ∃ p, ev.Deployment = some p ∧ p.key = K := by
  unfold lastDeploymentEventFor at h
  cases hf : evs.reverse.find? (concernsDeployment K) with
  | none => simp [hf] at h
  | some x =>
    have hx := List.find?_some hf
    rw [hf] at h
    simp at h
    subst h
    obtain ⟨t, r⟩ := ev
    cases r with
    | none => simp [concernsDeployment] at hx
    | some p => exact ⟨p, rfl, by simpa [concernsDeployment] using hx⟩

theorem updateDeployments_lookup (c : CacheRef) (evs : List (Option DeploymentEvent))
    (hwf : ∀ e ∈ evs, wellFormedDeploymentEvent e = true) (K : Key) :
    ((∃ p, (updateDeployments c MrrCache.empty evs).cache.deployments K = some p) ↔
        ∃ ev, lastDeploymentEventFor K evs = some ev ∧ (ev.EvType = .Added ∨ ev.EvType = .Modified))
      ∧ (∀ ev, lastDeploymentEventFor K evs = some ev → ev.EvType = .Added ∨ ev.EvType = .Modified →
          (updateDeployments c MrrCache.empty evs).cache.deployments K = ev.Deployment) := by
  have h := (updateDeployments_wellFormed c evs hwf).2.2.2 K
  unfold expectedDeployment at h
  cases hl : lastDeploymentEventFor K evs with
  | none =>
    rw [hl] at h
    simp [h]
  | some ev =>
    obtain ⟨p, hp, -⟩ := lastDeploymentEventFor_concerns K evs ev hl
    obtain ⟨t, r⟩ := ev
    simp only at hp
    subst hp
    rw [hl] at h
    cases t <;> simp_all

/-- C2, as stated, fails: on the sequence `Added` with a nil resource pointer,
then `Added(A)`, the apply routine of `loopWatchPods` panics at the first event;
the last event for the key of `A` is `Added(A)`, yet the collection has no entry
at that key. -/
theorem event_without_resource_stops_later_events :
    lastPodEventFor podA.key [some ⟨.Added, none⟩, some ⟨.Added, some podA⟩]
      = some ⟨.Added, some podA⟩
    ∧ (updatePods ⟨0⟩ MrrCache.empty
        [some ⟨.Added, none⟩, some ⟨.Added, some podA⟩]).cache.pods podA.key = none
    ∧ (¬ ∃ p, (updatePods ⟨0⟩ MrrCache.empty
        [some ⟨.Added, none⟩, some ⟨.Added, some podA⟩]).cache.pods podA.key = some p)
    ∧ (updatePods ⟨0⟩ MrrCache.empty
        [some ⟨.Added, none⟩, some ⟨.Added, some podA⟩]).crashed = true := by
  have h : (updatePods ⟨0⟩ MrrCache.empty
      [some ⟨.Added, none⟩, some ⟨.Added, some podA⟩]).cache.pods podA.key = none := by
    decide
  refine ⟨by decide, h, ?_, by decide⟩
  rintro ⟨p, hp⟩
  rw [h] at hp
  cases hp

/-- C2, amended: with the cache operations as specified, the apply routine of
each kind, run on an empty cache over any sequence of `Added`, `Modified` and
`Deleted` events that are non-nil and carry a non-nil resource, leaves a
collection that has an entry at the key
`K` exactly when the last event for `K` is `Added` or `Modified`, and the entry
is then the resource of that event. `Added(A)`, `Added(B)`, `Modified(A')`,
`Deleted(B)` leaves exactly `A'`. -/
theorem last_event_wins (c : CacheRef) (K : Key)
    (pes : List (Option PodEvent)) (hp : ∀ e ∈ pes, wellFormedPodEvent e = true)
    (ses : List (Option ServiceEvent)) (hs : ∀ e ∈ ses, wellFormedServiceEvent e = true)
    (des : List (Option DeploymentEvent))
    (hd : ∀ e ∈ des, wellFormedDeploymentEvent e = true) :
    (((∃ p, (updatePods c MrrCache.empty pes).cache.pods K = some p) ↔
          ∃ ev, lastPodEventFor K pes = some ev
            ∧ (ev.EvType = .Added ∨ ev.EvType = .Modified))
      ∧ (∀ ev, lastPodEventFor K pes = some ev →
          ev.EvType = .Added ∨ ev.EvType = .Modified →
          (updatePods c MrrCache.empty pes).cache.pods K = ev.Pod))
    ∧ (((∃ s, (updateServices c MrrCache.empty ses).cache.services K = some s) ↔
          ∃ ev, lastServiceEventFor K ses = some ev
            ∧ (ev.EvType = .Added ∨ ev.EvType = .Modified))
      ∧ (∀ ev, lastServiceEventFor K ses = some ev →
          ev.EvType = .Added ∨ ev.EvType = .Modified →
          (updateServices c MrrCache.empty ses).cache.services K = ev.Service))
    ∧ (((∃ d, (updateDeployments c MrrCache.empty des).cache.deployments K = some d) ↔
          ∃ ev, lastDeploymentEventFor K des = some ev
            ∧ (ev.EvType = .Added ∨ ev.EvType = .Modified))
      ∧ (∀ ev, lastDeploymentEventFor K des = some ev →
          ev.EvType = .Added ∨ ev.EvType = .Modified →
          (updateDeployments c MrrCache.empty des).cache.deployments K = ev.Deployment))
    ∧ (updatePods c MrrCache.empty
          [some ⟨.Added, some podA⟩, some ⟨.Added, some podB⟩, some ⟨.Modified, some podA'⟩,
           some ⟨.Deleted, some podB⟩]).cache.pods
        = (fun k => if k = podA'.key then some podA' else none) := by
  refine ⟨updatePods_lookup c pes hp K, updateServices_lookup c ses hs K,
    updateDeployments_lookup c des hd K, ?_⟩
  funext k
  have h1 : podA.key = podA'.key := by decide
  have h2 : ¬ podB.key = podA'.key := by decide
  simp only [updatePods, runBody, updatePodsBody, applyTo, MrrCache.perform, MrrCache.empty,
    Collection.upsert, Collection.remove, Collection.empty, List.foldl, List.cons_append,
    List.nil_append, Bool.false_eq_true, if_false, if_true, h1]
  split_ifs <;> simp_all

/-- Witness of C2, amended: the scenario of the specification, at the keys of `A` and of
`B`, with one service added and one deployment added and then deleted. -/
theorem last_event_wins_witness :
    (updatePods ⟨0⟩ MrrCache.empty
        [some ⟨.Added, some podA⟩, some ⟨.Added, some podB⟩, some ⟨.Modified, some podA'⟩,
         some ⟨.Deleted, some podB⟩]).cache.pods podA.key = some podA'
    ∧ ¬ (∃ p, (updatePods ⟨0⟩ MrrCache.empty
        [some ⟨.Added, some podA⟩, some ⟨.Added, some podB⟩, some ⟨.Modified, some podA'⟩,
         some ⟨.Deleted, some podB⟩]).cache.pods podB.key = some p) := by
  have hA := last_event_wins ⟨0⟩ podA.key
    [some ⟨.Added, some podA⟩, some ⟨.Added, some podB⟩, some ⟨.Modified, some podA'⟩,
     some ⟨.Deleted, some podB⟩] (by decide)
    [some ⟨.Added, some serviceS⟩] (by decide)
    [some ⟨.Added, some deploymentX⟩, some ⟨.Deleted, some deploymentX⟩] (by decide)
  have hB := last_event_wins ⟨0⟩ podB.key
    [some ⟨.Added, some podA⟩, some ⟨.Added, some podB⟩, some ⟨.Modified, some podA'⟩,
     some ⟨.Deleted, some podB⟩] (by decide)
    [some ⟨.Added, some serviceS⟩] (by decide)
    [some ⟨.Added, some deploymentX⟩, some ⟨.Deleted, some deploymentX⟩] (by decide)
  refine ⟨hA.1.2 ⟨.Modified, some podA'⟩ (by decide) (Or.inr rfl), ?_⟩
  rw [hB.1.1]
  rintro ⟨ev, hev, ht⟩
  have hl : lastPodEventFor podB.key
      [some ⟨.Added, some podA⟩, some ⟨.Added, some podB⟩, some ⟨.Modified, some podA'⟩,
       some ⟨.Deleted, some podB⟩] = some ⟨.Deleted, some podB⟩ := by decide
  rw [hl] at hev
  cases hev
  simp at ht

theorem watchPods_errors (kc : ClientRef) (events : ChanRef) (errs : List String) :
    watchPods kc events (errs.map some)
      = errs.flatMap (fun e => watchPodsCall kc events
          ++ [.logInfo "Disruption while watching pods: %s" [.str e]])
        ++ watchPodsCall kc events := by
  induction errs with
  | nil => rfl
  | cons e rest ih => simp [watchPods, watchPodsReturned, ih]

theorem watchPods_calls (kc : ClientRef) (events : ChanRef) (returned : List (Option String)) :
    watchCalls (watchPods kc events returned)
      = List.replicate (returned.length + 1) (kc, .pod, events) := by
  induction returned with
  | nil => rfl
  | cons r rest ih =>
    cases r <;>
      simp [watchPods, watchPodsCall, watchPodsReturned, watchCalls, ih, List.replicate_succ]

theorem watchPods_last (kc : ClientRef) (events : ChanRef) (returned : List (Option String)) :
    (watchPods kc events returned).getLast? = some (.watch kc .pod events) := by
  induction returned with
  | nil => rfl
  | cons r rest ih => simp [watchPods, ih]

theorem watchServices_errors (kc : ClientRef) (events : ChanRef) (errs : List String) :
    watchServices kc events (errs.map some)
      = errs.flatMap (fun e => watchServicesCall kc events
          ++ [.logInfo "Disruption while watching services: %s" [.str e]])
        ++ watchServicesCall kc events := by
  induction errs with
  | nil => rfl
  | cons e rest ih => simp [watchServices, watchServicesReturned, ih]

theorem watchServices_calls (kc : ClientRef) (events : ChanRef) (returned : List (Option String)) :
    watchCalls (watchServices kc events returned)
      = List.replicate (returned.length + 1) (kc, .service, events) := by
  induction returned with
  | nil => rfl
  | cons r rest ih =>
    cases r <;>
      simp [watchServices, watchServicesCall, watchServicesReturned, watchCalls, ih, List.replicate_succ]

theorem watchServices_last (kc : ClientRef) (events : ChanRef) (returned : List (Option String)) :
    (watchServices kc events returned).getLast? = some (.watch kc .service events) := by
  induction returned with
  | nil => rfl
  | cons r rest ih => simp [watchServices, ih]

theorem watchDeployments_errors (kc : ClientRef) (events : ChanRef) (errs : List String) :
    watchDeployments kc events (errs.map some)
      = errs.flatMap (fun e => watchDeploymentsCall kc events
          ++ [.logInfo "Disruption while watching services: %s" [.str e]])
        ++ watchDeploymentsCall kc events := by
  induction errs with
  | nil => rfl
  | cons e rest ih => simp [watchDeployments, watchDeploymentsReturned, ih]

theorem watchDeployments_calls (kc : ClientRef) (events : ChanRef) (returned : List (Option String)) :
    watchCalls (watchDeployments kc events returned)
      = List.replicate (returned.length + 1) (kc, .deployment, events) := by
  induction returned with
  | nil => rfl
  | cons r rest ih =>
    cases r <;>
      simp [watchDeployments, watchDeploymentsCall, watchDeploymentsReturned, watchCalls, ih, List.replicate_succ]

theorem watchDeployments_last (kc : ClientRef) (events : ChanRef) (returned : List (Option String)) :
    (watchDeployments kc events returned).getLast? = some (.watch kc .deployment events) := by
  induction returned with
  | nil => rfl
  | cons r rest ih => simp [watchDeployments, ih]

theorem exec_append {ε : Type} (code : LoopCode ε) (client : Nat → WatchScript ε)
    (a b : List Tid) (s : LoopState ε) :
    exec code client (a ++ b) s = exec code client b (exec code client a s) := by
  induction a generalizing s with
  | nil => rfl
  | cons t rest ih => simp [exec, ih]

theorem streamStep_trace {ε : Type} (code : LoopCode ε) (client : Nat → WatchScript ε)
    (s s' : LoopState ε) (h : streamStep code client s = some s') :
    s'.cache = s.cache ∧ s'.crashed = s.crashed
      ∧ (s'.trace = s.trace ∨ s'.trace = s.trace ++ code.call
          ∨ ∃ err, s'.trace = s.trace ++ code.returned err) := by
  obtain ⟨calls, stream, apply, ⟨cap, buf⟩, cache, trace, crashed⟩ := s
  unfold streamStep at h
  cases crashed with
  | true => simp at h
  | false =>
    cases stream with
    | top =>
      simp at h
      subst h
      exact ⟨rfl, rfl, Or.inr (Or.inl rfl)⟩
    | inCall toSend ret =>
      cases toSend with
      | nil =>
        cases ret with
        | hangs => simp at h
        | returns err =>
          simp at h
          subst h
          exact ⟨rfl, rfl, Or.inr (Or.inr ⟨err, rfl⟩)⟩
      | cons e rest =>
        cases apply with
        | receiving =>
          cases buf with
          | nil =>
            simp at h
            subst h
            exact ⟨rfl, rfl, Or.inl rfl⟩
          | cons b bs =>
            simp at h
            obtain ⟨-, h⟩ := h
            subst h
            exact ⟨rfl, rfl, Or.inl rfl⟩
        | holding e' =>
          simp at h
          obtain ⟨-, h⟩ := h
          subst h
          exact ⟨rfl, rfl, Or.inl rfl⟩

theorem cacheOps_append (xs ys : List Effect) :
    cacheOps (xs ++ ys) = cacheOps xs ++ cacheOps ys := by
  induction xs with
  | nil => rfl
  | cons x xs ih => cases x <;> simp [cacheOps, ih]

theorem beforeApply_step (c : CacheRef) (kc : ClientRef) (events : ChanRef) (m : MrrCache)
    (S : Service) (err : String) (client : Nat → WatchScript (Option ServiceEvent))
    (h0 : client 0 = ⟨[], .returns (some err)⟩)
    (h1 : (client 1).sends = [some ⟨.Added, some S⟩])
    (s : LoopState (Option ServiceEvent)) (t : Tid)
    (hs : beforeApply m S err (client 1).ret s) :
    beforeApply m S err (client 1).ret
        ((loopStep (servicesLoop c kc events) client s t).getD s)
      ∨ (c, .updateService S)
          ∈ cacheOps ((loopStep (servicesLoop c kc events) client s t).getD s).trace := by
  obtain ⟨calls, stream, apply, ⟨cap, buf⟩, cache, trace, crashed⟩ := s
  obtain ⟨hc, hcap, hbuf, hops, hm, hphase⟩ := hs
  simp only at hc hcap hbuf hops hm hphase
  subst hc hcap hbuf hm
  rcases hphase with ⟨rfl, rfl, rfl⟩ | ⟨rfl, rfl, rfl⟩ | ⟨rfl, rfl, rfl⟩ | ⟨rfl, rfl, rfl⟩ | rfl
  · cases t with
    | stream =>
      left
      simp [loopStep, streamStep, h0, beforeApply, servicesLoop, cacheOps_append, hops,
        watchServicesCall, cacheOps]
    | apply =>
      left
      simp [loopStep, applyStep, beforeApply, hops]
  · cases t with
    | stream =>
      left
      simp [loopStep, streamStep, beforeApply, servicesLoop, cacheOps_append, hops,
        watchServicesReturned, cacheOps]
    | apply =>
      left
      simp [loopStep, applyStep, beforeApply, hops]
  · cases t with
    | stream =>
      left
      simp [loopStep, streamStep, h1, beforeApply, servicesLoop, cacheOps_append, hops,
        watchServicesCall, cacheOps]
    | apply =>
      left
      simp [loopStep, applyStep, beforeApply, hops]
  · cases t with
    | stream =>
      left
      simp [loopStep, streamStep, beforeApply, hops]
    | apply =>
      left
      simp [loopStep, applyStep, beforeApply, hops]
  · cases t with
    | stream =>
      left
      cases stream with
      | top =>
        simp [loopStep, streamStep, beforeApply, servicesLoop, cacheOps_append, hops,
          watchServicesCall, cacheOps]
      | inCall toSend ret =>
        cases toSend with
        | nil =>
          cases ret with
          | hangs => simp [loopStep, streamStep, beforeApply, hops]
          | returns e =>
            cases e <;>
              simp [loopStep, streamStep, beforeApply, servicesLoop, cacheOps_append, hops,
                watchServicesReturned, cacheOps]
        | cons e rest => simp [loopStep, streamStep, beforeApply, hops]
    | apply =>
      right
      simp [loopStep, applyStep, servicesLoop, updateServicesBody, cacheOps_append, cacheOps]

theorem applyStep_trace {ε : Type} (code : LoopCode ε) (s s' : LoopState ε)
    (h : applyStep code s = some s') : ∃ more, s'.trace = s.trace ++ more := by
  obtain ⟨calls, stream, apply, ⟨cap, buf⟩, cache, trace, crashed⟩ := s
  unfold applyStep at h
  cases crashed with
  | true => simp at h
  | false =>
    cases apply with
    | receiving =>
      cases buf with
      | nil => simp at h
      | cons b bs =>
        simp at h
        subst h
        exact ⟨[], by simp⟩
    | holding e =>
      simp at h
      subst h
      exact ⟨_, rfl⟩

theorem loopStep_trace {ε : Type} (code : LoopCode ε) (client : Nat → WatchScript ε)
    (s : LoopState ε) (t : Tid) :
    ∃ more, ((loopStep code client s t).getD s).trace = s.trace ++ more := by
  cases hstep : loopStep code client s t with
  | none => exact ⟨[], by simp⟩
  | some s' =>
    cases t with
    | stream =>
      rcases (streamStep_trace code client s s' hstep).2.2 with h | h | ⟨err, h⟩
      · exact ⟨[], by simp [h]⟩
      · exact ⟨_, by simpa using h⟩
      · exact ⟨_, by simpa using h⟩
    | apply => simpa using applyStep_trace code s s' hstep

theorem exec_trace {ε : Type} (code : LoopCode ε) (client : Nat → WatchScript ε)
    (sched : List Tid) (s : LoopState ε) :
    ∃ more, (exec code client sched s).trace = s.trace ++ more := by
  induction sched generalizing s with
  | nil => exact ⟨[], by simp [exec]⟩
  | cons t rest ih =>
    obtain ⟨more1, h1⟩ := loopStep_trace code client s t
    obtain ⟨more2, h2⟩ := ih ((loopStep code client s t).getD s)
    exact ⟨more1 ++ more2, by simp [exec, h2, h1]⟩

theorem exec_applied {ε : Type} (code : LoopCode ε) (client : Nat → WatchScript ε)
    (sched : List Tid) (s : LoopState ε) (x : CacheRef × CacheOp)
    (h : x ∈ cacheOps s.trace) : x ∈ cacheOps (exec code client sched s).trace := by
  obtain ⟨more, hmore⟩ := exec_trace code client sched s
  rw [hmore, cacheOps_append]
  exact List.mem_append_left _ h

theorem beforeApply_exec (c : CacheRef) (kc : ClientRef) (events : ChanRef) (m : MrrCache)
    (S : Service) (err : String) (client : Nat → WatchScript (Option ServiceEvent))
    (h0 : client 0 = ⟨[], .returns (some err)⟩)
    (h1 : (client 1).sends = [some ⟨.Added, some S⟩])
    (sched : List Tid) (s : LoopState (Option ServiceEvent))
    (hs : beforeApply m S err (client 1).ret s
      ∨ (c, .updateService S) ∈ cacheOps s.trace) :
    beforeApply m S err (client 1).ret (exec (servicesLoop c kc events) client sched s)
      ∨ (c, .updateService S)
          ∈ cacheOps (exec (servicesLoop c kc events) client sched s).trace := by
  induction sched generalizing s with
  | nil => exact hs
  | cons t rest ih =>
    unfold exec
    apply ih
    rcases hs with hs | hs
    · exact beforeApply_step c kc events m S err client h0 h1 s t hs
    · right
      obtain ⟨more, hmore⟩ := loopStep_trace (servicesLoop c kc events) client s t
      rw [hmore, cacheOps_append]
      exact List.mem_append_left _ hs

theorem beforeApply_progress (c : CacheRef) (kc : ClientRef) (events : ChanRef) (m : MrrCache)
    (S : Service) (err : String) (client : Nat → WatchScript (Option ServiceEvent))
    (h0 : client 0 = ⟨[], .returns (some err)⟩)
    (h1 : (client 1).sends = [some ⟨.Added, some S⟩])
    (s : LoopState (Option ServiceEvent))
    (hs : beforeApply m S err (client 1).ret s) :
    ∃ ext, (c, .updateService S)
      ∈ cacheOps (exec (servicesLoop c kc events) client ext s).trace := by
  obtain ⟨calls, stream, apply, ⟨cap, buf⟩, cache, trace, crashed⟩ := s
  obtain ⟨hc, hcap, hbuf, hops, hm, hphase⟩ := hs
  simp only at hc hcap hbuf hops hm hphase
  subst hc hcap hbuf hm
  rcases hphase with ⟨rfl, rfl, rfl⟩ | ⟨rfl, rfl, rfl⟩ | ⟨rfl, rfl, rfl⟩ | ⟨rfl, rfl, rfl⟩ | rfl
  · exact ⟨[.stream, .stream, .stream, .stream, .apply], by
      simp [exec, loopStep, streamStep, applyStep, h0, h1, servicesLoop, updateServicesBody,
        cacheOps_append, cacheOps]⟩
  · exact ⟨[.stream, .stream, .stream, .apply], by
      simp [exec, loopStep, streamStep, applyStep, h1, servicesLoop, updateServicesBody,
        cacheOps_append, cacheOps]⟩
  · exact ⟨[.stream, .stream, .apply], by
      simp [exec, loopStep, streamStep, applyStep, h1, servicesLoop, updateServicesBody,
        cacheOps_append, cacheOps]⟩
  · exact ⟨[.stream, .apply], by
      simp [exec, loopStep, streamStep, applyStep, servicesLoop, updateServicesBody,
        cacheOps_append, cacheOps]⟩
  · exact ⟨[.apply], by
      simp [exec, loopStep, applyStep, servicesLoop, updateServicesBody,
        cacheOps_append, cacheOps]⟩

theorem services_scenario_all_schedules (c : CacheRef) (kc : ClientRef) (events : ChanRef)
    (m : MrrCache) (S : Service) (err : String)
    (client : Nat → WatchScript (Option ServiceEvent))
    (h0 : client 0 = ⟨[], .returns (some err)⟩)
    (h1 : (client 1).sends = [some ⟨.Added, some S⟩]) (sched : List Tid) :
    ∃ ext, (c, .updateService S)
      ∈ cacheOps (exec (servicesLoop c kc events) client (sched ++ ext)
          (LoopState.init (Option ServiceEvent) m)).trace := by
  have hinit : beforeApply m S err (client 1).ret (LoopState.init (Option ServiceEvent) m) := by
    simp [beforeApply, LoopState.init, Chan.make, cacheOps]
  rcases beforeApply_exec c kc events m S err client h0 h1 sched _ (Or.inl hinit) with h | h
  · obtain ⟨ext, hext⟩ := beforeApply_progress c kc events m S err client h0 h1 _ h
    exact ⟨ext, by rw [exec_append]; exact hext⟩
  · exact ⟨[], by simpa using h⟩

/-- C3: the stream routine of each kind, after `n` watch calls that each returned
an error, has logged each of the `n` errors and is inside call `n + 1`, made
with the same channel as all the calls before it; whatever the calls returned,
the last thing the routine did is to call the watch again. For services, when
the first call fails at once and the second delivers `Added(S)`, the apply
routine puts `S` into the cache: it does so when the stream routine moves four
times and the apply routine once, and however the two goroutines have been
scheduled so far, the run can go on until the apply routine has called
`updateService` on `S`. -/
theorem watch_retries_after_error (c : CacheRef) (kc : ClientRef) (events : ChanRef)
    (errs : List String) (returned : List (Option String))
    (m : MrrCache) (S : Service) (err : String)
    (client : Nat → WatchScript (Option ServiceEvent))
    (h0 : client 0 = ⟨[], .returns (some err)⟩)
    (h1 : (client 1).sends = [some ⟨.Added, some S⟩]) :
    (watchPods kc events (errs.map some)
        = errs.flatMap (fun e => watchPodsCall kc events
            ++ [.logInfo "Disruption while watching pods: %s" [.str e]])
          ++ watchPodsCall kc events
      ∧ watchCalls (watchPods kc events (errs.map some))
        = List.replicate (errs.length + 1) (kc, .pod, events)
      ∧ (watchPods kc events returned).getLast? = some (.watch kc .pod events))
    ∧ (watchServices kc events (errs.map some)
        = errs.flatMap (fun e => watchServicesCall kc events
            ++ [.logInfo "Disruption while watching services: %s" [.str e]])
          ++ watchServicesCall kc events
      ∧ watchCalls (watchServices kc events (errs.map some))
        = List.replicate (errs.length + 1) (kc, .service, events)
      ∧ (watchServices kc events returned).getLast? = some (.watch kc .service events))
    ∧ (watchDeployments kc events (errs.map some)
        = errs.flatMap (fun e => watchDeploymentsCall kc events
            ++ [.logInfo "Disruption while watching services: %s" [.str e]])
          ++ watchDeploymentsCall kc events
      ∧ watchCalls (watchDeployments kc events (errs.map some))
        = List.replicate (errs.length + 1) (kc, .deployment, events)
      ∧ (watchDeployments kc events returned).getLast?
        = some (.watch kc .deployment events))
    ∧ ((exec (servicesLoop c kc events) client [.stream, .stream, .stream, .stream, .apply]
          (LoopState.init (Option ServiceEvent) m)).cache = m.perform (.updateService S)
      ∧ (exec (servicesLoop c kc events) client [.stream, .stream, .stream, .stream, .apply]
          (LoopState.init (Option ServiceEvent) m)).cache.services S.key = some S
      ∧ (exec (servicesLoop c kc events) client [.stream, .stream, .stream, .stream, .apply]
          (LoopState.init (Option ServiceEvent) m)).crashed = false
      ∧ (exec (servicesLoop c kc events) client [.stream, .stream, .stream, .stream, .apply]
          (LoopState.init (Option ServiceEvent) m)).trace
        = watchServicesCall kc events ++ watchServicesReturned (some err)
          ++ watchServicesCall kc events
          ++ (updateServicesBody c (some ⟨.Added, some S⟩)).effects)
    ∧ (∀ sched : List Tid, ∃ ext : List Tid,
        (c, .updateService S)
          ∈ cacheOps (exec (servicesLoop c kc events) client (sched ++ ext)
              (LoopState.init (Option ServiceEvent) m)).trace) := by
  refine ⟨⟨watchPods_errors kc events errs, ?_, watchPods_last kc events returned⟩,
    ⟨watchServices_errors kc events errs, ?_, watchServices_last kc events returned⟩,
    ⟨watchDeployments_errors kc events errs, ?_, watchDeployments_last kc events returned⟩,
    ?_, services_scenario_all_schedules c kc events m S err client h0 h1⟩
  · simpa using watchPods_calls kc events (errs.map some)
  · simpa using watchServices_calls kc events (errs.map some)
  · simpa using watchDeployments_calls kc events (errs.map some)
  · have hs : exec (servicesLoop c kc events) client
        [.stream, .stream, .stream, .stream, .apply] (LoopState.init (Option ServiceEvent) m)
        = ⟨2, .inCall [] (client 1).ret, .receiving, Chan.make _, m.perform (.updateService S),
            watchServicesCall kc events ++ watchServicesReturned (some err)
              ++ watchServicesCall kc events
              ++ (updateServicesBody c (some ⟨.Added, some S⟩)).effects, false⟩ := by
      simp [exec, loopStep, streamStep, applyStep, LoopState.init, Chan.make, h0, h1,
        servicesLoop, updateServicesBody, applyTo]
    rw [hs]
    simp [MrrCache.perform, Collection.upsert]

/-- Witness of C3: two errors, then a client whose first call fails at once and
whose later calls deliver `Added(S)`. -/
theorem watch_retries_after_error_witness :
    watchCalls (watchServices ⟨"http://k8s"⟩ ⟨1⟩ (["eof", "reset"].map some))
        = List.replicate (["eof", "reset"].length + 1) (⟨"http://k8s"⟩, .service, ⟨1⟩)
    ∧ (exec (servicesLoop ⟨0⟩ ⟨"http://k8s"⟩ ⟨1⟩)
          (fun i => if i = 0 then ⟨[], .returns (some "eof")⟩
            else ⟨[some ⟨.Added, some serviceS⟩], .hangs⟩)
          [.stream, .stream, .stream, .stream, .apply]
          (LoopState.init (Option ServiceEvent) MrrCache.empty)).cache.services serviceS.key
        = some serviceS :=
  have h := watch_retries_after_error ⟨0⟩ ⟨"http://k8s"⟩ ⟨1⟩ ["eof", "reset"] [] MrrCache.empty
    serviceS "eof"
    (fun i => if i = 0 then ⟨[], .returns (some "eof")⟩
      else ⟨[some ⟨.Added, some serviceS⟩], .hangs⟩) rfl rfl
  ⟨h.2.1.2.1, h.2.2.2.1.2.1⟩

theorem Collection.foldl_upsert_of_not_mem {ρ : Type} (key : ρ → Key) (rs : List ρ)
    (acc : Collection ρ) (k : Key) (h : k ∉ rs.map key) :
    (rs.foldl (fun m r => Collection.upsert key r m) acc) k = acc k := by
  induction rs generalizing acc with
  | nil => rfl
  | cons x xs ih =>
    simp only [List.map_cons, List.mem_cons, not_or] at h
    rw [List.foldl_cons, ih _ h.2]
    simp [Collection.upsert, h.1]

theorem Collection.foldl_upsert_some {ρ : Type} (key : ρ → Key) (rs : List ρ)
    (acc : Collection ρ) (k : Key) (r : ρ)
    (h : (rs.foldl (fun m r => Collection.upsert key r m) acc) k = some r) :
    (r ∈ rs ∧ key r = k) ∨ acc k = some r := by
  induction rs generalizing acc with
  | nil => exact Or.inr h
  | cons x xs ih =>
    rw [List.foldl_cons] at h
    rcases ih _ h with h' | h'
    · exact Or.inl ⟨List.mem_cons_of_mem _ h'.1, h'.2⟩
    · unfold Collection.upsert at h'
      split_ifs at h' with hk
      · simp only [Option.some.injEq] at h'
        subst h'
        exact Or.inl ⟨List.mem_cons_self _ _, hk.symm⟩
      · exact Or.inr h'

theorem Collection.replaceAll_sound {ρ : Type} (key : ρ → Key) (rs : List ρ)
    (old : Collection ρ) (k : Key) (r : ρ) (h : Collection.replaceAll key rs old k = some r) :
    r ∈ rs ∧ key r = k := by
  rcases Collection.foldl_upsert_some key rs Collection.empty k r h with h' | h'
  · exact h'
  · simp [Collection.empty] at h'

theorem Collection.replaceAll_complete {ρ : Type} (key : ρ → Key) (rs : List ρ)
    (old : Collection ρ) (hn : (rs.map key).Nodup) (r : ρ) (hr : r ∈ rs) :
    Collection.replaceAll key rs old (key r) = some r := by
  unfold Collection.replaceAll
  generalize (Collection.empty : Collection ρ) = acc
  induction rs generalizing acc with
  | nil => simp at hr
  | cons x xs ih =>
    simp only [List.map_cons, List.nodup_cons] at hn
    rw [List.foldl_cons]
    rcases List.mem_cons.mp hr with rfl | hx
    · rw [Collection.foldl_upsert_of_not_mem key xs _ _ hn.1]
      simp [Collection.upsert]
    · exact ih hn.2 hx _

theorem Collection.replaceAll_entries {ρ : Type} (key : ρ → Key) (rs : List ρ)
    (old : Collection ρ) (hn : (rs.map key).Nodup) (r : ρ) :
    r ∈ (Collection.replaceAll key rs old).entries ↔ r ∈ rs := by
  constructor
  · rintro ⟨k, hk⟩
    exact (Collection.replaceAll_sound key rs old k r hk).1
  · intro hr
    exact ⟨key r, Collection.replaceAll_complete key rs old hn r hr⟩

theorem applyTo_append (c : CacheRef) (m : MrrCache) (xs ys : List Effect) :
    applyTo c m (xs ++ ys) = applyTo c (applyTo c m xs) ys := by
  induction xs generalizing m with
  | nil => rfl
  | cons x xs ih => cases x <;> simp [applyTo, ih]

theorem applyTo_of_cacheOps_nil (c : CacheRef) (m : MrrCache) (xs : List Effect)
    (h : cacheOps xs = []) : applyTo c m xs = m := by
  induction xs generalizing m with
  | nil => rfl
  | cons x xs ih => cases x <;> simp_all [applyTo, cacheOps]

/-- C4: for every prior state of the cache and every non-empty list `R` that the
listing of a kind returns without error, one cycle of the refresh loop of that
kind calls the replace-all of that kind exactly once, with `R`, and calls no
other cache operation; with replace-all as specified, every resource in the
collection afterwards is a resource of `R`, and when the keys of `R` are
distinct the collection holds exactly the resources of `R`; the collections of
the other kinds are as before. With the cache holding `X` and `Z`, the listing
`X`, `Y` leaves exactly `X` and `Y`. -/
theorem refresh_replaces_collection (c : CacheRef) (kc : ClientRef) (interval : Nat)
    (m : MrrCache)
    (ps : List Pod) (_hp : ps ≠ [])
    (ss : List Service) (_hs : ss ≠ [])
    (ds : List Deployment) (_hd : ds ≠ []) :
    (cacheOps (loopUpdatePodsCycle c kc interval ⟨some ps, none⟩) = [(c, .setPods ps)]
      ∧ (∀ p, p ∈ (applyTo c m (loopUpdatePodsCycle c kc interval ⟨some ps, none⟩)).pods.entries
          → p ∈ ps)
      ∧ ((ps.map Pod.key).Nodup → ∀ p,
          p ∈ (applyTo c m (loopUpdatePodsCycle c kc interval ⟨some ps, none⟩)).pods.entries
            ↔ p ∈ ps)
      ∧ (applyTo c m (loopUpdatePodsCycle c kc interval ⟨some ps, none⟩)).services
          = m.services
      ∧ (applyTo c m (loopUpdatePodsCycle c kc interval ⟨some ps, none⟩)).deployments
          = m.deployments)
    ∧ (cacheOps (loopUpdateServicesCycle c kc interval ⟨some ss, none⟩)
          = [(c, .setServices ss)]
      ∧ (∀ s, s ∈ (applyTo c m
            (loopUpdateServicesCycle c kc interval ⟨some ss, none⟩)).services.entries
          → s ∈ ss)
      ∧ ((ss.map Service.key).Nodup → ∀ s,
          s ∈ (applyTo c m
            (loopUpdateServicesCycle c kc interval ⟨some ss, none⟩)).services.entries
            ↔ s ∈ ss)
      ∧ (applyTo c m (loopUpdateServicesCycle c kc interval ⟨some ss, none⟩)).pods = m.pods
      ∧ (applyTo c m (loopUpdateServicesCycle c kc interval ⟨some ss, none⟩)).deployments
          = m.deployments)
    ∧ (cacheOps (loopUpdateDeploymentsCycle c kc interval ⟨some ds, none⟩)
          = [(c, .setDeployments ds)]
      ∧ (∀ d, d ∈ (applyTo c m
            (loopUpdateDeploymentsCycle c kc interval ⟨some ds, none⟩)).deployments.entries
          → d ∈ ds)
      ∧ ((ds.map Deployment.key).Nodup → ∀ d,
          d ∈ (applyTo c m
            (loopUpdateDeploymentsCycle c kc interval ⟨some ds, none⟩)).deployments.entries
            ↔ d ∈ ds)
      ∧ (applyTo c m (loopUpdateDeploymentsCycle c kc interval ⟨some ds, none⟩)).pods
          = m.pods
      ∧ (applyTo c m (loopUpdateDeploymentsCycle c kc interval ⟨some ds, none⟩)).services
          = m.services)
    ∧ (∀ k, (applyTo c cacheXZ
          (loopUpdateDeploymentsCycle c kc interval
            ⟨some [deploymentX, deploymentY], none⟩)).deployments k
        = if k = deploymentX.key then some deploymentX
          else if k = deploymentY.key then some deploymentY else none) := by
  refine ⟨⟨by simp [loopUpdatePodsCycle, cacheOps], ?_, ?_, ?_, ?_⟩,
    ⟨by simp [loopUpdateServicesCycle, cacheOps], ?_, ?_, ?_, ?_⟩,
    ⟨by simp [loopUpdateDeploymentsCycle, cacheOps], ?_, ?_, ?_, ?_⟩, ?_⟩
  · rintro p ⟨k, hk⟩
    simp only [loopUpdatePodsCycle, applyTo, List.cons_append, List.nil_append, if_true,
      MrrCache.perform] at hk
    exact (Collection.replaceAll_sound Pod.key ps _ k p hk).1
  · intro hn p
    simp only [loopUpdatePodsCycle, applyTo, List.cons_append, List.nil_append, if_true,
      MrrCache.perform]
    exact Collection.replaceAll_entries Pod.key ps _ hn p
  · simp [loopUpdatePodsCycle, applyTo, MrrCache.perform]
  · simp [loopUpdatePodsCycle, applyTo, MrrCache.perform]
  · rintro s ⟨k, hk⟩
    simp only [loopUpdateServicesCycle, applyTo, List.cons_append, List.nil_append, if_true,
      MrrCache.perform] at hk
    exact (Collection.replaceAll_sound Service.key ss _ k s hk).1
  · intro hn s
    simp only [loopUpdateServicesCycle, applyTo, List.cons_append, List.nil_append, if_true,
      MrrCache.perform]
    exact Collection.replaceAll_entries Service.key ss _ hn s
  · simp [loopUpdateServicesCycle, applyTo, MrrCache.perform]
  · simp [loopUpdateServicesCycle, applyTo, MrrCache.perform]
  · rintro d ⟨k, hk⟩
    simp only [loopUpdateDeploymentsCycle, applyTo, List.cons_append, List.nil_append,
      if_true, MrrCache.perform] at hk
    exact (Collection.replaceAll_sound Deployment.key ds _ k d hk).1
  · intro hn d
    simp only [loopUpdateDeploymentsCycle, applyTo, List.cons_append, List.nil_append,
      if_true, MrrCache.perform]
    exact Collection.replaceAll_entries Deployment.key ds _ hn d
  · simp [loopUpdateDeploymentsCycle, applyTo, MrrCache.perform]
  · simp [loopUpdateDeploymentsCycle, applyTo, MrrCache.perform]
  · intro k
    have h : ¬ deploymentX.key = deploymentY.key := by decide
    simp only [loopUpdateDeploymentsCycle, applyTo, List.cons_append, List.nil_append,
      if_true, MrrCache.perform, Collection.replaceAll, List.foldl, Collection.upsert,
      Collection.empty]
    split_ifs <;> simp_all

/-- Witness of C4: the listing `X`, `Y` for deployments (and one pod, one
service) on the cache that holds `X` and `Z`: `Z` is gone, `Y` is there. -/
theorem refresh_replaces_collection_witness :
    cacheOps (loopUpdateDeploymentsCycle ⟨0⟩ ⟨"http://k8s"⟩ 30
        ⟨some [deploymentX, deploymentY], none⟩)
      = [(⟨0⟩, .setDeployments [deploymentX, deploymentY])]
    ∧ cacheXZ.deployments deploymentZ.key = some deploymentZ
    ∧ (applyTo ⟨0⟩ cacheXZ (loopUpdateDeploymentsCycle ⟨0⟩ ⟨"http://k8s"⟩ 30
        ⟨some [deploymentX, deploymentY], none⟩)).deployments deploymentZ.key = none
    ∧ (applyTo ⟨0⟩ cacheXZ (loopUpdateDeploymentsCycle ⟨0⟩ ⟨"http://k8s"⟩ 30
        ⟨some [deploymentX, deploymentY], none⟩)).deployments deploymentY.key
      = some deploymentY := by
  have h := refresh_replaces_collection ⟨0⟩ ⟨"http://k8s"⟩ 30 cacheXZ
    [podA] (by decide) [serviceS] (by decide) [deploymentX, deploymentY] (by decide)
  refine ⟨h.2.2.1.1, by decide, ?_, ?_⟩
  · rw [h.2.2.2 deploymentZ.key]; decide
  · rw [h.2.2.2 deploymentY.key]; decide

/-- C5, as stated, fails: when the listing of pods returns the error `timeout`
together with the non-nil list that holds `A`, the cycle calls `setPods` with
that list, and the pod `B` that the cache held is gone. -/
theorem refresh_error_with_list_replaces :
    cacheOps (loopUpdatePodsCycle ⟨0⟩ ⟨"http://k8s"⟩ 30 ⟨some [podA], some "timeout"⟩)
      = [(⟨0⟩, .setPods [podA])]
    ∧ cacheB.pods podB.key = some podB
    ∧ (applyTo ⟨0⟩ cacheB
        (loopUpdatePodsCycle ⟨0⟩ ⟨"http://k8s"⟩ 30 ⟨some [podA], some "timeout"⟩)).pods
          podB.key = none
    ∧ (applyTo ⟨0⟩ cacheB
        (loopUpdatePodsCycle ⟨0⟩ ⟨"http://k8s"⟩ 30 ⟨some [podA], some "timeout"⟩)).pods
          podA.key = some podA := by
  refine ⟨by decide, by decide, by decide, by decide⟩

/-- C5, amended: in a refresh cycle of any kind in which the listing returns an
error, the cycle logs the error, calls the listing once and ends with the
interval sleep; when the list that comes with the error is nil it performs no
cache operation and the cache is as before; when that list is not nil it calls
the replace-all of its kind with it, and nothing else on the cache. -/
theorem refresh_error_logged (c : CacheRef) (kc : ClientRef) (interval : Nat) (m : MrrCache)
    (e : String) (ps : Option (List Pod)) (ss : Option (List Service))
    (ds : Option (List Deployment)) :
    ((.logInfo "Could not get pods from %v: %v" [.baseURL kc, .str e])
          ∈ loopUpdatePodsCycle c kc interval ⟨ps, some e⟩
      ∧ listCalls (loopUpdatePodsCycle c kc interval ⟨ps, some e⟩) = [(kc, .pod)]
      ∧ (loopUpdatePodsCycle c kc interval ⟨ps, some e⟩).getLast? = some (.sleep interval)
      ∧ (ps = none →
          cacheOps (loopUpdatePodsCycle c kc interval ⟨ps, some e⟩) = []
          ∧ applyTo c m (loopUpdatePodsCycle c kc interval ⟨ps, some e⟩) = m)
      ∧ (∀ l, ps = some l →
          cacheOps (loopUpdatePodsCycle c kc interval ⟨ps, some e⟩) = [(c, .setPods l)]))
    ∧ ((.logInfo "Could not get services from %v: %v" [.baseURL kc, .str e])
          ∈ loopUpdateServicesCycle c kc interval ⟨ss, some e⟩
      ∧ listCalls (loopUpdateServicesCycle c kc interval ⟨ss, some e⟩) = [(kc, .service)]
      ∧ (loopUpdateServicesCycle c kc interval ⟨ss, some e⟩).getLast?
          = some (.sleep interval)
      ∧ (ss = none →
          cacheOps (loopUpdateServicesCycle c kc interval ⟨ss, some e⟩) = []
          ∧ applyTo c m (loopUpdateServicesCycle c kc interval ⟨ss, some e⟩) = m)
      ∧ (∀ l, ss = some l →
          cacheOps (loopUpdateServicesCycle c kc interval ⟨ss, some e⟩)
            = [(c, .setServices l)]))
    ∧ ((.logInfo "Could not get deployments from %v: %v" [.baseURL kc, .str e])
          ∈ loopUpdateDeploymentsCycle c kc interval ⟨ds, some e⟩
      ∧ listCalls (loopUpdateDeploymentsCycle c kc interval ⟨ds, some e⟩)
          = [(kc, .deployment)]
      ∧ (loopUpdateDeploymentsCycle c kc interval ⟨ds, some e⟩).getLast?
          = some (.sleep interval)
      ∧ (ds = none →
          cacheOps (loopUpdateDeploymentsCycle c kc interval ⟨ds, some e⟩) = []
          ∧ applyTo c m (loopUpdateDeploymentsCycle c kc interval ⟨ds, some e⟩) = m)
      ∧ (∀ l, ds = some l →
          cacheOps (loopUpdateDeploymentsCycle c kc interval ⟨ds, some e⟩)
            = [(c, .setDeployments l)])) := by
  refine ⟨?_, ?_, ?_⟩
  · cases ps <;> simp [loopUpdatePodsCycle, listCalls, cacheOps, applyTo]
  · cases ss <;> simp [loopUpdateServicesCycle, listCalls, cacheOps, applyTo]
  · cases ds <;> simp [loopUpdateDeploymentsCycle, listCalls, cacheOps, applyTo]

/-- Witness of C5, amended: the listing of pods fails with `timeout` and a nil
list, on the cache that holds `B`; services and deployments fail with a list. -/
theorem refresh_error_logged_witness :
    cacheOps (loopUpdatePodsCycle ⟨0⟩ ⟨"http://k8s"⟩ 30 ⟨none, some "timeout"⟩) = []
    ∧ applyTo ⟨0⟩ cacheB (loopUpdatePodsCycle ⟨0⟩ ⟨"http://k8s"⟩ 30 ⟨none, some "timeout"⟩)
      = cacheB
    ∧ cacheOps (loopUpdateServicesCycle ⟨0⟩ ⟨"http://k8s"⟩ 30
        ⟨some [serviceS], some "timeout"⟩) = [(⟨0⟩, .setServices [serviceS])] :=
  have h := refresh_error_logged ⟨0⟩ ⟨"http://k8s"⟩ 30 cacheB "timeout" none
    (some [serviceS]) (some [deploymentX])
  ⟨(h.1.2.2.2.1 rfl).1, (h.1.2.2.2.1 rfl).2, h.2.1.2.2.2.2 [serviceS] rfl⟩

/-- C6, as stated, fails: when the listing of pods returns, without error, a
non-nil list of length 0, the cycle calls `setPods` with it, and the pod `B`
that the cache held is gone. -/
theorem refresh_empty_list_replaces :
    cacheOps (loopUpdatePodsCycle ⟨0⟩ ⟨"http://k8s"⟩ 30 ⟨some [], none⟩)
      = [(⟨0⟩, .setPods [])]
    ∧ cacheB.pods podB.key = some podB
    ∧ (applyTo ⟨0⟩ cacheB
        (loopUpdatePodsCycle ⟨0⟩ ⟨"http://k8s"⟩ 30 ⟨some [], none⟩)).pods podB.key = none := by
  refine ⟨by decide, by decide, by decide⟩

/-- C6, amended: a refresh cycle of any kind calls the replace-all of its kind
exactly when the list that the listing returned is not nil, and then once, with
that list. When the list is nil, no cache operation is performed and the cache
is as before; when the list is not nil and has length 0, the collection of the
kind is empty afterwards. -/
theorem refresh_replaces_iff_list_not_nil (c : CacheRef) (kc : ClientRef) (interval : Nat)
    (m : MrrCache) (rp : Listing Pod) (rs : Listing Service) (rd : Listing Deployment) :
    ((rp.list = none →
          cacheOps (loopUpdatePodsCycle c kc interval rp) = []
          ∧ applyTo c m (loopUpdatePodsCycle c kc interval rp) = m)
      ∧ (∀ l, rp.list = some l →
          cacheOps (loopUpdatePodsCycle c kc interval rp) = [(c, .setPods l)])
      ∧ (rp.list = some [] →
          (applyTo c m (loopUpdatePodsCycle c kc interval rp)).pods = Collection.empty))
    ∧ ((rs.list = none →
          cacheOps (loopUpdateServicesCycle c kc interval rs) = []
          ∧ applyTo c m (loopUpdateServicesCycle c kc interval rs) = m)
      ∧ (∀ l, rs.list = some l →
          cacheOps (loopUpdateServicesCycle c kc interval rs) = [(c, .setServices l)])
      ∧ (rs.list = some [] →
          (applyTo c m (loopUpdateServicesCycle c kc interval rs)).services
            = Collection.empty))
    ∧ ((rd.list = none →
          cacheOps (loopUpdateDeploymentsCycle c kc interval rd) = []
          ∧ applyTo c m (loopUpdateDeploymentsCycle c kc interval rd) = m)
      ∧ (∀ l, rd.list = some l →
          cacheOps (loopUpdateDeploymentsCycle c kc interval rd) = [(c, .setDeployments l)])
      ∧ (rd.list = some [] →
          (applyTo c m (loopUpdateDeploymentsCycle c kc interval rd)).deployments
            = Collection.empty)) := by
  obtain ⟨pl, pe⟩ := rp
  obtain ⟨sl, se⟩ := rs
  obtain ⟨dl, de⟩ := rd
  refine ⟨?_, ?_, ?_⟩
  · cases pl <;> cases pe <;>
      simp [loopUpdatePodsCycle, cacheOps, applyTo, MrrCache.perform]
    all_goals (intro h; subst h; rfl)
  · cases sl <;> cases se <;>
      simp [loopUpdateServicesCycle, cacheOps, applyTo, MrrCache.perform]
    all_goals (intro h; subst h; rfl)
  · cases dl <;> cases de <;>
      simp [loopUpdateDeploymentsCycle, cacheOps, applyTo, MrrCache.perform]
    all_goals (intro h; subst h; rfl)

/-- Witness of C6, amended: a nil list of pods on the cache that holds `B`, and
a non-nil empty list of services. -/
theorem refresh_replaces_iff_list_not_nil_witness :
    cacheOps (loopUpdatePodsCycle ⟨0⟩ ⟨"http://k8s"⟩ 30 ⟨none, none⟩) = []
    ∧ applyTo ⟨0⟩ cacheB (loopUpdatePodsCycle ⟨0⟩ ⟨"http://k8s"⟩ 30 ⟨none, none⟩) = cacheB
    ∧ cacheOps (loopUpdateServicesCycle ⟨0⟩ ⟨"http://k8s"⟩ 30 ⟨some [], none⟩)
      = [(⟨0⟩, .setServices [])] :=
  have h := refresh_replaces_iff_list_not_nil ⟨0⟩ ⟨"http://k8s"⟩ 30 cacheB
    ⟨none, none⟩ ⟨some [], none⟩ ⟨some [deploymentX], none⟩
  ⟨(h.1.1 rfl).1, (h.1.1 rfl).2, h.2.1.2.1 [] rfl⟩

theorem runBody_trace_forall {ε : Type} (c : CacheRef) (body : ε → Outcome)
    (P : Effect → Prop) (hbody : ∀ e, ∀ eff ∈ (body e).effects, P eff)
    (received : List ε) (s : Applied) (hs : ∀ eff ∈ s.trace, P eff) :
    ∀ eff ∈ (received.foldl (runBody c body) s).trace, P eff := by
  induction received generalizing s with
  | nil => exact hs
  | cons e rest ih =>
    rw [List.foldl_cons]
    apply ih
    unfold runBody
    split_ifs
    · exact hs
    · intro eff heff
      rcases List.mem_append.mp heff with h | h
      · exact hs eff h
      · exact hbody e eff h

theorem updatePodsBody_refreshes (c : CacheRef) (e : Option PodEvent) :
    ∀ eff ∈ (updatePodsBody c e).effects, eff.refreshes = false := by
  match e with
  | none => simp [updatePodsBody, Effect.refreshes]
  | some ⟨t, none⟩ => simp [updatePodsBody, Effect.refreshes]
  | some ⟨t, some p⟩ =>
    cases t <;> simp [updatePodsBody, Effect.refreshes, CacheOp.isReplaceAll]

theorem updateServicesBody_refreshes (c : CacheRef) (e : Option ServiceEvent) :
    ∀ eff ∈ (updateServicesBody c e).effects, eff.refreshes = false := by
  match e with
  | none => simp [updateServicesBody, Effect.refreshes]
  | some ⟨t, none⟩ => simp [updateServicesBody, Effect.refreshes]
  | some ⟨t, some p⟩ =>
    cases t <;> simp [updateServicesBody, Effect.refreshes, CacheOp.isReplaceAll]

theorem updateDeploymentsBody_refreshes (c : CacheRef) (e : Option DeploymentEvent) :
    ∀ eff ∈ (updateDeploymentsBody c e).effects, eff.refreshes = false := by
  match e with
  | none => simp [updateDeploymentsBody, Effect.refreshes]
  | some ⟨t, none⟩ => simp [updateDeploymentsBody, Effect.refreshes]
  | some ⟨t, some p⟩ =>
    cases t <;> simp [updateDeploymentsBody, Effect.refreshes, CacheOp.isReplaceAll]

theorem watchPods_refreshes (kc : ClientRef) (events : ChanRef)
    (returned : List (Option String)) :
    ∀ eff ∈ watchPods kc events returned, eff.refreshes = false := by
  induction returned with
  | nil => simp [watchPods, watchPodsCall, Effect.refreshes]
  | cons r rest ih =>
    intro eff heff
    simp only [watchPods, List.mem_append] at heff
    rcases heff with (h | h) | h
    · simp [watchPodsCall] at h
      rcases h with rfl | rfl <;> rfl
    · cases r <;> simp [watchPodsReturned] at h
      subst h; rfl
    · exact ih eff h

theorem watchServices_refreshes (kc : ClientRef) (events : ChanRef)
    (returned : List (Option String)) :
    ∀ eff ∈ watchServices kc events returned, eff.refreshes = false := by
  induction returned with
  | nil => simp [watchServices, watchServicesCall, Effect.refreshes]
  | cons r rest ih =>
    intro eff heff
    simp only [watchServices, List.mem_append] at heff
    rcases heff with (h | h) | h
    · simp [watchServicesCall] at h
      rcases h with rfl | rfl <;> rfl
    · cases r <;> simp [watchServicesReturned] at h
      subst h; rfl
    · exact ih eff h

theorem watchDeployments_refreshes (kc : ClientRef) (events : ChanRef)
    (returned : List (Option String)) :
    ∀ eff ∈ watchDeployments kc events returned, eff.refreshes = false := by
  induction returned with
  | nil => simp [watchDeployments, watchDeploymentsCall, Effect.refreshes]
  | cons r rest ih =>
    intro eff heff
    simp only [watchDeployments, List.mem_append] at heff
    rcases heff with (h | h) | h
    · simp [watchDeploymentsCall] at h
      rcases h with rfl | rfl <;> rfl
    · cases r <;> simp [watchDeploymentsReturned] at h
      subst h; rfl
    · exact ih eff h

theorem runRoutine_refreshes (m : MrrCache) (feed : Feed) (r : Routine) :
    ∀ eff ∈ runRoutine m feed r, eff.refreshes = false := by
  cases r with
  | watchPods kc events => exact watchPods_refreshes kc events _
  | updatePods c events =>
    exact runBody_trace_forall c _ _ (updatePodsBody_refreshes c) _ _ (by simp)
  | watchServices kc events => exact watchServices_refreshes kc events _
  | updateServices c events =>
    exact runBody_trace_forall c _ _ (updateServicesBody_refreshes c) _ _ (by simp)
  | watchDeployments kc events => exact watchDeployments_refreshes kc events _
  | updateDeployments c events =>
    exact runBody_trace_forall c _ _ (updateDeploymentsBody_refreshes c) _ _ (by simp)

theorem RunWatch_refreshes (f : Factory) (w : World) (args : List String) :
    ∀ eff ∈ RunWatch f w args, eff.refreshes = false := by
  unfold RunWatch
  split
  · split
    · simp [Effect.refreshes]
    · split
      · simp [Effect.refreshes]
      · split <;>
          simp [loopWatchPods, loopWatchServices, loopWatchDeployments, Effect.refreshes]
  · simp [Effect.refreshes]

/-- C8: `RunWatch` starts a goroutine or calls `Serve` only when it was given
exactly one argument, the bind succeeded and the argument parsed; in that case
it starts the six goroutines of the three watch loops and calls `Serve` once.
In every other case it writes exactly one message to stderr, obtains neither the
cache nor the client, starts no goroutine and does not call `Serve`. -/
theorem runWatch_startup_checks (f : Factory) (w : World) (args : List String) :
    ((started (RunWatch f w args) ≠ [] ∨ serveCalls (RunWatch f w args) ≠ []) →
        startConditions w args = true)
    ∧ (∀ arg l url, args = [arg] → w.listen w.bind = .ok l →
        w.parseRequestURI arg = .ok url →
        started (RunWatch f w args)
            = [.watchPods (f.KubeClient url) ⟨0⟩, .updatePods f.MrrCache ⟨0⟩,
               .watchServices (f.KubeClient url) ⟨1⟩, .updateServices f.MrrCache ⟨1⟩,
               .watchDeployments (f.KubeClient url) ⟨2⟩, .updateDeployments f.MrrCache ⟨2⟩]
          ∧ serveCalls (RunWatch f w args) = [(l, f.MrrCache)])
    ∧ (startConditions w args = false →
        (∃ format fargs, stderrWrites (RunWatch f w args) = [(format, fargs)])
          ∧ (∀ eff ∈ RunWatch f w args, eff.obtains = false)
          ∧ started (RunWatch f w args) = []
          ∧ serveCalls (RunWatch f w args) = [])
    ∧ (args.length ≠ 1 →
        RunWatch f w args = [.stderr "You must specify URL of Kubernetes API" []])
    ∧ (∀ arg err, args = [arg] → w.listen w.bind = .error err →
        RunWatch f w args
          = [.listen w.bind,
             .stderr "Kube Mirror failed to bind on %s: %v" [.str w.bind, .str err]])
    ∧ (∀ arg l err, args = [arg] → w.listen w.bind = .ok l →
        w.parseRequestURI arg = .error err →
        RunWatch f w args
          = [.listen w.bind,
             .stderr "Could not parse [%s] as URL: %v" [.str arg, .str err]]) := by
  have hsucc : ∀ arg l url, args = [arg] → w.listen w.bind = .ok l →
      w.parseRequestURI arg = .ok url →
      started (RunWatch f w args)
          = [.watchPods (f.KubeClient url) ⟨0⟩, .updatePods f.MrrCache ⟨0⟩,
             .watchServices (f.KubeClient url) ⟨1⟩, .updateServices f.MrrCache ⟨1⟩,
             .watchDeployments (f.KubeClient url) ⟨2⟩, .updateDeployments f.MrrCache ⟨2⟩]
        ∧ serveCalls (RunWatch f w args) = [(l, f.MrrCache)] := by
    intro arg l url ha hl hu
    subst ha
    simp only [RunWatch, hl, hu, loopWatchPods, loopWatchServices, loopWatchDeployments]
    cases f.Serve l f.MrrCache with
    | hangs => simp [started, serveCalls]
    | returns err => cases err <;> simp [started, serveCalls]
  have hlen : args.length ≠ 1 →
      RunWatch f w args = [.stderr "You must specify URL of Kubernetes API" []] := by
    intro h
    match args, h with
    | [], _ => rfl
    | _ :: _ :: _, _ => rfl
  have hbind : ∀ arg err, args = [arg] → w.listen w.bind = .error err →
      RunWatch f w args
        = [.listen w.bind,
           .stderr "Kube Mirror failed to bind on %s: %v" [.str w.bind, .str err]] := by
    intro arg err ha hl
    subst ha
    simp [RunWatch, hl]
  have hparse : ∀ arg l err, args = [arg] → w.listen w.bind = .ok l →
      w.parseRequestURI arg = .error err →
      RunWatch f w args
        = [.listen w.bind,
           .stderr "Could not parse [%s] as URL: %v" [.str arg, .str err]] := by
    intro arg l err ha hl hu
    subst ha
    simp [RunWatch, hl, hu]
  have hfail : startConditions w args = false →
      (∃ format fargs, stderrWrites (RunWatch f w args) = [(format, fargs)])
        ∧ (∀ eff ∈ RunWatch f w args, eff.obtains = false)
        ∧ started (RunWatch f w args) = []
        ∧ serveCalls (RunWatch f w args) = [] := by
    intro hno
    by_cases hlen1 : args.length = 1
    · obtain ⟨arg, rfl⟩ := List.length_eq_one.mp hlen1
      cases hl : w.listen w.bind with
      | error err =>
        rw [hbind arg err rfl hl]
        simp [stderrWrites, started, serveCalls, Effect.obtains]
      | ok l =>
        cases hu : w.parseRequestURI arg with
        | error err =>
          rw [hparse arg l err rfl hl hu]
          simp [stderrWrites, started, serveCalls, Effect.obtains]
        | ok url => simp [startConditions, hl, hu] at hno
    · rw [hlen hlen1]
      simp [stderrWrites, started, serveCalls, Effect.obtains]
  refine ⟨?_, hsucc, hfail, hlen, hbind, hparse⟩
  intro h
  by_contra hno
  obtain ⟨-, -, h1, h2⟩ := hfail (by simpa using hno)
  rcases h with h | h
  · exact h h1
  · exact h h2

/-- Witness of C8: one argument that parses and a bind that succeeds; then no
argument at all. -/
theorem runWatch_startup_checks_witness :
    serveCalls (RunWatch ⟨⟨0⟩, fun u => ⟨u⟩, fun _ _ => .hangs⟩
        ⟨"0.0.0.0:33033", fun b => .ok ⟨b⟩, fun a => .ok a⟩ ["http://k8s"])
      = [(⟨"0.0.0.0:33033"⟩, ⟨0⟩)]
    ∧ RunWatch ⟨⟨0⟩, fun u => ⟨u⟩, fun _ _ => .hangs⟩
        ⟨"0.0.0.0:33033", fun b => .ok ⟨b⟩, fun a => .ok a⟩ []
      = [.stderr "You must specify URL of Kubernetes API" []] :=
  ⟨((runWatch_startup_checks ⟨⟨0⟩, fun u => ⟨u⟩, fun _ _ => .hangs⟩
        ⟨"0.0.0.0:33033", fun b => .ok ⟨b⟩, fun a => .ok a⟩ ["http://k8s"]).2.1
      "http://k8s" ⟨"0.0.0.0:33033"⟩ "http://k8s" rfl rfl rfl).2,
   (runWatch_startup_checks ⟨⟨0⟩, fun u => ⟨u⟩, fun _ _ => .hangs⟩
        ⟨"0.0.0.0:33033", fun b => .ok ⟨b⟩, fun a => .ok a⟩ []).2.2.2.1 (by decide)⟩

/-- C10: on a successful start `RunWatch` obtains the cache and the client,
runs `loopWatchPods`, `loopWatchServices` and `loopWatchDeployments` in this
order on that cache and that client, then calls `Serve` with the listener and
that cache, and after that at most reports how `Serve` ended. No run of
`RunWatch`, whatever its arguments and whatever its goroutines receive, calls a
one-shot listing or a replace-all. -/
theorem runWatch_launches_watch_loops_only (f : Factory) (w : World) (arg : String)
    (l : Listener) (url : String)
    (hl : w.listen w.bind = .ok l) (hu : w.parseRequestURI arg = .ok url) :
    (∃ tail,
        RunWatch f w [arg]
          = [.listen w.bind, .logInfo "Kube Mirror is listening on %s" [.str w.bind],
             .mrrCache, .kubeClient url]
            ++ loopWatchPods f.MrrCache (f.KubeClient url) ⟨0⟩
            ++ loopWatchServices f.MrrCache (f.KubeClient url) ⟨1⟩
            ++ loopWatchDeployments f.MrrCache (f.KubeClient url) ⟨2⟩
            ++ [.serve l f.MrrCache] ++ tail
        ∧ (tail = [] ∨ (∃ err, tail
              = [.stderr "Kube Mirror encounered unexpected error: %v" [.str err]])
            ∨ tail = [.logPrintln "Kube Mirror has stopped"]))
    ∧ started (RunWatch f w [arg])
        = [.watchPods (f.KubeClient url) ⟨0⟩, .updatePods f.MrrCache ⟨0⟩,
           .watchServices (f.KubeClient url) ⟨1⟩, .updateServices f.MrrCache ⟨1⟩,
           .watchDeployments (f.KubeClient url) ⟨2⟩, .updateDeployments f.MrrCache ⟨2⟩]
    ∧ serveCalls (RunWatch f w [arg]) = [(l, f.MrrCache)]
    ∧ (∀ (f' : Factory) (w' : World) (args : List String) (m : MrrCache) (feed : Feed),
        ∀ eff ∈ allEffects f' w' args m feed, eff.refreshes = false) := by
  refine ⟨?_, ?_, ?_, ?_⟩
  · simp only [RunWatch, hl, hu]
    cases f.Serve l f.MrrCache with
    | hangs => exact ⟨[], rfl, Or.inl rfl⟩
    | returns err =>
      cases err with
      | none => exact ⟨_, rfl, Or.inr (Or.inr rfl)⟩
      | some e => exact ⟨_, rfl, Or.inr (Or.inl ⟨e, rfl⟩)⟩
  · simp only [RunWatch, hl, hu, loopWatchPods, loopWatchServices, loopWatchDeployments]
    cases f.Serve l f.MrrCache with
    | hangs => simp [started]
    | returns err => cases err <;> simp [started]
  · simp only [RunWatch, hl, hu, loopWatchPods, loopWatchServices, loopWatchDeployments]
    cases f.Serve l f.MrrCache with
    | hangs => simp [serveCalls]
    | returns err => cases err <;> simp [serveCalls]
  · intro f' w' args m feed eff heff
    unfold allEffects at heff
    rcases List.mem_append.mp heff with h | h
    · exact RunWatch_refreshes f' w' args eff h
    · obtain ⟨r, -, hr⟩ := List.mem_flatMap.mp h
      exact runRoutine_refreshes m feed r eff hr

/-- Witness of C10: one argument that parses, a bind that succeeds and a `Serve`
that does not return. -/
theorem runWatch_launches_watch_loops_only_witness :
    started (RunWatch ⟨⟨0⟩, fun u => ⟨u⟩, fun _ _ => .hangs⟩
        ⟨"0.0.0.0:33033", fun b => .ok ⟨b⟩, fun a => .ok a⟩ ["http://k8s"])
      = [.watchPods ⟨"http://k8s"⟩ ⟨0⟩, .updatePods ⟨0⟩ ⟨0⟩,
         .watchServices ⟨"http://k8s"⟩ ⟨1⟩, .updateServices ⟨0⟩ ⟨1⟩,
         .watchDeployments ⟨"http://k8s"⟩ ⟨2⟩, .updateDeployments ⟨0⟩ ⟨2⟩]
    ∧ serveCalls (RunWatch ⟨⟨0⟩, fun u => ⟨u⟩, fun _ _ => .hangs⟩
        ⟨"0.0.0.0:33033", fun b => .ok ⟨b⟩, fun a => .ok a⟩ ["http://k8s"])
      = [(⟨"0.0.0.0:33033"⟩, ⟨0⟩)] :=
  have h := runWatch_launches_watch_loops_only ⟨⟨0⟩, fun u => ⟨u⟩, fun _ _ => .hangs⟩
    ⟨"0.0.0.0:33033", fun b => .ok ⟨b⟩, fun a => .ok a⟩ "http://k8s" ⟨"0.0.0.0:33033"⟩
    "http://k8s" rfl rfl
  ⟨h.2.1, h.2.2.1⟩

theorem streamStep_events {ε : Type} (code : LoopCode ε) (client : Nat → WatchScript ε)
    (s s' : LoopState ε) (hcap : s.events.cap = 0) (hbuf : s.events.buf = [])
    (h : streamStep code client s = some s') : s'.events.cap = 0 ∧ s'.events.buf = [] := by
  obtain ⟨calls, stream, apply, ⟨cap, buf⟩, cache, trace, crashed⟩ := s
  simp only at hcap hbuf
  subst hcap hbuf
  unfold streamStep at h
  cases crashed with
  | true => simp at h
  | false =>
    cases stream with
    | top =>
      simp at h
      subst h
      exact ⟨rfl, rfl⟩
    | inCall toSend ret =>
      cases toSend with
      | nil =>
        cases ret with
        | hangs => simp at h
        | returns err =>
          simp at h
          subst h
          exact ⟨rfl, rfl⟩
      | cons e rest =>
        cases apply with
        | receiving =>
          simp at h
          subst h
          exact ⟨rfl, rfl⟩
        | holding e' => simp at h

theorem applyStep_events {ε : Type} (code : LoopCode ε)
    (s s' : LoopState ε) (hcap : s.events.cap = 0) (hbuf : s.events.buf = [])
    (h : applyStep code s = some s') : s'.events.cap = 0 ∧ s'.events.buf = [] := by
  obtain ⟨calls, stream, apply, ⟨cap, buf⟩, cache, trace, crashed⟩ := s
  simp only at hcap hbuf
  subst hcap hbuf
  unfold applyStep at h
  cases crashed with
  | true => simp at h
  | false =>
    cases apply with
    | receiving => simp at h
    | holding e =>
      simp at h
      subst h
      exact ⟨rfl, rfl⟩

theorem exec_events {ε : Type} (code : LoopCode ε) (client : Nat → WatchScript ε)
    (sched : List Tid) (s : LoopState ε) (hcap : s.events.cap = 0) (hbuf : s.events.buf = []) :
    (exec code client sched s).events.cap = 0 ∧ (exec code client sched s).events.buf = [] := by
  induction sched generalizing s with
  | nil => exact ⟨hcap, hbuf⟩
  | cons t rest ih =>
    unfold exec
    cases hstep : loopStep code client s t with
    | none => simpa using ih s hcap hbuf
    | some s' =>
      have hs' : s'.events.cap = 0 ∧ s'.events.buf = [] := by
        cases t with
        | stream => exact streamStep_events code client s s' hcap hbuf hstep
        | apply => exact applyStep_events code s s' hcap hbuf hstep
      simpa using ih s' hs'.1 hs'.2

theorem streamStep_forwarding {ε : Type} (code : LoopCode ε) (client : Nat → WatchScript ε)
    (s : LoopState ε) (hcap : s.events.cap = 0) (hbuf : s.events.buf = [])
    (hf : s.forwarding = true) (hc : s.crashed = false) :
    (streamStep code client s).isSome = s.applyWaiting := by
  obtain ⟨calls, stream, apply, ⟨cap, buf⟩, cache, trace, crashed⟩ := s
  simp only at hcap hbuf hc
  subst hcap hbuf hc
  cases stream with
  | top => simp [LoopState.forwarding] at hf
  | inCall toSend ret =>
    cases toSend with
    | nil => simp [LoopState.forwarding] at hf
    | cons e rest =>
      cases apply <;> simp [streamStep, LoopState.applyWaiting]

/-- C9, as stated, fails: in `loopWatchPods`, once the client has forwarded
`Added(A)` and the apply routine holds it, the channel holds no event, the
client has `Added(B)` to forward, and the send cannot complete: the stream
routine has to wait until the apply routine has run its body and is back at its
receive. -/
theorem forwarding_waits_for_apply :
    (exec (podsLoop ⟨0⟩ ⟨"http://k8s"⟩ ⟨0⟩)
        (fun _ => ⟨[some ⟨.Added, some podA⟩, some ⟨.Added, some podB⟩], .hangs⟩)
        [.stream, .stream] (LoopState.init (Option PodEvent) MrrCache.empty)).forwarding = true
    ∧ (exec (podsLoop ⟨0⟩ ⟨"http://k8s"⟩ ⟨0⟩)
        (fun _ => ⟨[some ⟨.Added, some podA⟩, some ⟨.Added, some podB⟩], .hangs⟩)
        [.stream, .stream] (LoopState.init (Option PodEvent) MrrCache.empty)).events.buf = []
    ∧ (exec (podsLoop ⟨0⟩ ⟨"http://k8s"⟩ ⟨0⟩)
        (fun _ => ⟨[some ⟨.Added, some podA⟩, some ⟨.Added, some podB⟩], .hangs⟩)
        [.stream, .stream] (LoopState.init (Option PodEvent) MrrCache.empty)).crashed = false
    ∧ (streamStep (podsLoop ⟨0⟩ ⟨"http://k8s"⟩ ⟨0⟩)
        (fun _ => ⟨[some ⟨.Added, some podA⟩, some ⟨.Added, some podB⟩], .hangs⟩)
        (exec (podsLoop ⟨0⟩ ⟨"http://k8s"⟩ ⟨0⟩)
          (fun _ => ⟨[some ⟨.Added, some podA⟩, some ⟨.Added, some podB⟩], .hangs⟩)
          [.stream, .stream] (LoopState.init (Option PodEvent) MrrCache.empty))).isSome
        = false
    ∧ (streamStep (podsLoop ⟨0⟩ ⟨"http://k8s"⟩ ⟨0⟩)
        (fun _ => ⟨[some ⟨.Added, some podA⟩, some ⟨.Added, some podB⟩], .hangs⟩)
        (exec (podsLoop ⟨0⟩ ⟨"http://k8s"⟩ ⟨0⟩)
          (fun _ => ⟨[some ⟨.Added, some podA⟩, some ⟨.Added, some podB⟩], .hangs⟩)
          [.stream, .stream, .apply] (LoopState.init (Option PodEvent) MrrCache.empty))).isSome
        = true := by
  refine ⟨rfl, rfl, rfl, rfl, rfl⟩

/-- C9, amended: the channel between the stream routine and the apply routine of
a watch loop has capacity 0 and, under every schedule, never holds an event;
whenever the stream routine has an event to forward, the send can complete
exactly when the apply routine is waiting at its receive, and the event then
goes straight to the apply routine. -/
theorem channel_is_unbuffered {ε : Type} (code : LoopCode ε) (client : Nat → WatchScript ε)
    (m : MrrCache) (sched : List Tid) :
    (Chan.make ε).cap = 0
    ∧ (exec code client sched (LoopState.init ε m)).events.cap = 0
    ∧ (exec code client sched (LoopState.init ε m)).events.buf = []
    ∧ ((exec code client sched (LoopState.init ε m)).forwarding = true →
        (exec code client sched (LoopState.init ε m)).crashed = false →
        (streamStep code client (exec code client sched (LoopState.init ε m))).isSome
          = (exec code client sched (LoopState.init ε m)).applyWaiting) := by
  have h := exec_events code client sched (LoopState.init ε m) rfl rfl
  exact ⟨rfl, h.1, h.2, streamStep_forwarding code client _ h.1 h.2⟩

/-- Witness of C9, amended: the pods loop after the client forwarded `Added(A)`;
the apply routine holds it and is not waiting, and the send of `Added(B)` cannot
complete. -/
theorem channel_is_unbuffered_witness :
    (streamStep (podsLoop ⟨0⟩ ⟨"http://k8s"⟩ ⟨0⟩)
        (fun _ => ⟨[some ⟨.Added, some podA⟩, some ⟨.Added, some podB⟩], .hangs⟩)
        (exec (podsLoop ⟨0⟩ ⟨"http://k8s"⟩ ⟨0⟩)
          (fun _ => ⟨[some ⟨.Added, some podA⟩, some ⟨.Added, some podB⟩], .hangs⟩)
          [.stream, .stream] (LoopState.init (Option PodEvent) MrrCache.empty))).isSome
      = (exec (podsLoop ⟨0⟩ ⟨"http://k8s"⟩ ⟨0⟩)
          (fun _ => ⟨[some ⟨.Added, some podA⟩, some ⟨.Added, some podB⟩], .hangs⟩)
          [.stream, .stream]
          (LoopState.init (Option PodEvent) MrrCache.empty)).applyWaiting :=
  (channel_is_unbuffered (podsLoop ⟨0⟩ ⟨"http://k8s"⟩ ⟨0⟩)
    (fun _ => ⟨[some ⟨.Added, some podA⟩, some ⟨.Added, some podB⟩], .hangs⟩)
    MrrCache.empty [.stream, .stream]).2.2.2 rfl rfl

end Kubemrr
